import Mathlib

/-!
# The `txn` command of etcdctl v3: line grammar and collector

A shallow embedding of `etcdctlv3/command/txn_command.go`.

* Go strings and byte slices are finite sequences of bytes.
* A Go call has one of four outcomes (`Go`): it returns normally, it returns a
  non-nil `error`, it ends the process through `ExitWithError`, or it panics
  (index out of range, nil pointer dereference).
* `*pb.TxnRequest` and `*bufio.Reader` are mutated in place by the source; here
  the new request and the unread rest of standard input are returned.
* Prompts written with `fmt.Println` do not influence the request and are not
  modelled.
-/

namespace Etcd

/-! ## Strings, slices, outcomes -/

/-- One byte. -/
abbrev Byte := Fin 256

/-- A Go `string`: an immutable sequence of bytes. -/
abbrev GoString := List Byte

/-- A Go `[]byte`: `none` is the nil slice, `some bs` a non-nil slice holding `bs`. -/
abbrev Bytes := Option GoString

/-- A Go string literal: the UTF-8 bytes of its text. -/
def str (s : String) : GoString :=
  s.toUTF8.data.toList.map (fun b => b.val)

/-- The conversion `[]byte(s)`: always a non-nil slice. -/
def toBytes (s : GoString) : Bytes := some s

/-- The space byte, the separator of fields. -/
def sp : Byte := 32

/-- The newline byte, the terminator of lines. -/
def nl : Byte := 10

/-- Run-time panics of the Go runtime that the code can raise. -/
inductive Panic where
  | indexOutOfRange (index length : Nat)
  | sliceBoundsOutOfRange
  | nilDereference
  deriving DecidableEq

/-- Go `error` values that occur: one built by `fmt.Errorf`, carrying its text,
and `io.EOF`. -/
inductive GoError where
  | text (msg : GoString)
  | EOF
  deriving DecidableEq

/-- Exit codes passed to `ExitWithError`. -/
inductive ExitCode where
  | ExitBadArgs
  | ExitInvalidInput
  | ExitBadConnection
  | ExitError
  deriving DecidableEq

/-- Outcome of a Go call. `ok v`: normal return (with a nil error, when the
function has an error result); `fail e`: the function returned the non-nil error
`e` (and a nil pointer); `exit code e`: the process was ended by
`ExitWithError(code, e)`; `panic p`: a run-time panic. -/
inductive Go (α : Type) where
  | ok (v : α)
  | fail (e : GoError)
  | exit (code : ExitCode) (e : GoError)
  | panic (p : Panic)
  deriving DecidableEq

/-- Sequencing of Go statements: everything but a normal return ends the
enclosing function. -/
def Go.bind {α β : Type} (x : Go α) (f : α → Go β) : Go β :=
  match x with
  | .ok v => f v
  | .fail e => .fail e
  | .exit c e => .exit c e
  | .panic p => .panic p

instance : Monad Go where
  pure := Go.ok
  bind := Go.bind

/-- The index expression `xs[i]`: panics when `i` is out of range. -/
def index {α : Type} (xs : List α) (i : Nat) : Go α :=
  match xs[i]? with
  | some x => .ok x
  | none => .panic (.indexOutOfRange i xs.length)

/-- The slice expression `s[:hi]` for a signed `hi`: panics when `hi` is
negative or beyond the length. -/
def sliceTo (s : GoString) (hi : Int) : Go GoString :=
  if 0 ≤ hi ∧ hi ≤ (s.length : Int) then .ok (s.take hi.toNat)
  else .panic .sliceBoundsOutOfRange

/-- Modelled from the spec: the function `fmt.Errorf` of the Go standard library,
which is not among the sources; the specification has the error carry the
offending line. For a format that is fixed text followed by one `%s` the text of
the error is the fixed text followed by the argument. -/
def fmt.Errorf (text : GoString) (arg : GoString) : GoError :=
  .text (text ++ arg)

/-! ## `strings.Split` and `strconv.ParseInt` -/

namespace strings

/-- Modelled from the spec: the function `strings.Split` of the Go standard
library, which is not among the sources; the specification has a line split on
single space characters into fields. For a separator of one byte the result is
the pieces of `s` between the occurrences of `sep`: one piece more than there are
separators, so a string without separator (the empty one included) gives one
piece. -/
def Split : GoString → Byte → List GoString
  | [], _ => [[]]
  | b :: bs, sep =>
    if b = sep then [] :: Split bs sep
    else
      match Split bs sep with
      | [] => [[b]]
      | p :: ps => (b :: p) :: ps

end strings

namespace strconv

/-- The two errors of package `strconv` for a valid base. -/
inductive NumError where
  | ErrSyntax
  | ErrRange
  deriving DecidableEq

/-- Arithmetic of `uint64` wraps modulo `2^64`. -/
def wrap64 (n : Nat) : Nat := n % 2 ^ 64

/-- The function `cutoff64(base)`: the smallest number `n` with `n*base` above `2^64 - 1`. -/
def cutoff64 (base : Nat) : Nat := (2 ^ 64 - 1) / base + 1

/-- The value of the digit byte `d` in `ParseUint`: decimal digits, then lower
and upper case letters from ten on; `none` for every other byte. -/
def digitVal (d : Byte) : Option Nat :=
  if 48 ≤ d.val ∧ d.val ≤ 57 then some (d.val - 48)
  else if 97 ≤ d.val ∧ d.val ≤ 122 then some (d.val - 97 + 10)
  else if 65 ≤ d.val ∧ d.val ≤ 90 then some (d.val - 65 + 10)
  else none

/-- The digit loop of `ParseUint`, from the bytes not yet read and the number
accumulated so far, to the pair `(n, err)` the function returns. -/
def parseUintLoop (base maxVal : Nat) : GoString → Nat → Nat × Option NumError
  | [], n => (n, none)
  | d :: ds, n =>
    match digitVal d with
    | none => (0, some .ErrSyntax)
    | some v =>
      if v ≥ base then (0, some .ErrSyntax)
      else if n ≥ cutoff64 base then (2 ^ 64 - 1, some .ErrRange)
      else
        let n := wrap64 (n * base)
        let n1 := wrap64 (n + v)
        if n1 < n ∨ n1 > maxVal then (2 ^ 64 - 1, some .ErrRange)
        else parseUintLoop base maxVal ds n1

/-- Modelled from the spec: the function `strconv.ParseUint` of the Go standard
library, which is not among the sources and which `strconv.ParseInt` calls. The
model follows the library for `2 <= base <= 36` and `1 <= bitSize <= 64` (the
call in this program has base 10 and bit size 64; the prefixes of base 0 and the
error for an invalid base are outside the model). -/
def ParseUint (s : GoString) (base bitSize : Nat) : Nat × Option NumError :=
  if s.length < 1 then (0, some .ErrSyntax)
  else parseUintLoop base (wrap64 (wrap64 (2 ^ bitSize) + 2 ^ 64 - 1)) s 0

/-- The conversion `int64(u)` of a `uint64`: two's complement. -/
def toInt64 (u : Nat) : Int :=
  if u % 2 ^ 64 < 2 ^ 63 then ((u % 2 ^ 64 : Nat) : Int) else ((u % 2 ^ 64 : Nat) : Int) - 2 ^ 64

/-- Negation of an `int64`, which wraps at `-2^63`. -/
def negInt64 (n : Int) : Int :=
  if n = -(2 : Int) ^ 63 then n else -n

/-- Modelled from the spec: the function `strconv.ParseInt` of the Go standard
library, which is not among the sources; the specification has field 4 parsed as
a base-10 signed 64-bit integer, with a failure if it is not numeric. The model
follows the library, under the conditions of `ParseUint`: a sign is picked off,
the rest goes through `ParseUint`, and the range is checked; the result is the
pair `(i, err)` that the function returns. -/
def ParseInt (s : GoString) (base bitSize : Nat) : Int × Option NumError :=
  if s.length = 0 then (0, some .ErrSyntax)
  else
    let neg := s.head? = some 45
    let s1 := if s.head? = some 43 ∨ s.head? = some 45 then s.drop 1 else s
    match ParseUint s1 base bitSize with
    | (_, some .ErrSyntax) => (0, some .ErrSyntax)
    | (un, _) =>
      let cutoff := wrap64 (2 ^ (bitSize - 1))
      if ¬ neg ∧ un ≥ cutoff then (toInt64 (cutoff - 1), some .ErrRange)
      else if neg ∧ un > cutoff then (negInt64 (toInt64 cutoff), some .ErrRange)
      else
        let n := toInt64 un
        (if neg then negInt64 n else n, none)

end strconv

/-! ## The request types of package `pb` -/

namespace pb

/-- Modelled from the spec: the enumeration `pb.Compare_CompareResult` of the
generated package `etcdserverpb`, which is not among the sources; its three
values are the operators GREATER, EQUAL, LESS of the data model. -/
inductive Compare_CompareResult where
  | Compare_EQUAL
  | Compare_GREATER
  | Compare_LESS
  deriving DecidableEq

/-- Modelled from the spec: the enumeration `pb.Compare_CompareTarget` of the
generated package `etcdserverpb`; its four values are the targets VERSION,
CREATE_REVISION, MOD_REVISION, VALUE of the data model. -/
inductive Compare_CompareTarget where
  | Compare_VERSION
  | Compare_CREATE
  | Compare_MOD
  | Compare_VALUE
  deriving DecidableEq

export Compare_CompareResult (Compare_EQUAL Compare_GREATER Compare_LESS)
export Compare_CompareTarget (Compare_VERSION Compare_CREATE Compare_MOD Compare_VALUE)

/-- Modelled from the spec: the struct `pb.Compare` of the generated package,
with the fields the code assigns; the defaults are Go zero values, as in
`&pb.Compare{}`. -/
structure Compare where
  Result : Compare_CompareResult := Compare_EQUAL
  Target : Compare_CompareTarget := Compare_VERSION
  Key : Bytes := none
  Version : Int := 0
  CreateRevision : Int := 0
  ModRevision : Int := 0
  Value : Bytes := none
  deriving DecidableEq

/-- Modelled from the spec: the struct `pb.RangeRequest` of the generated
package, with the fields the code assigns. -/
structure RangeRequest where
  Key : Bytes := none
  RangeEnd : Bytes := none
  deriving DecidableEq

/-- Modelled from the spec: the struct `pb.PutRequest` of the generated package. -/
structure PutRequest where
  Key : Bytes := none
  Value : Bytes := none
  deriving DecidableEq

/-- Modelled from the spec: the struct `pb.DeleteRangeRequest` of the generated
package. -/
structure DeleteRangeRequest where
  Key : Bytes := none
  RangeEnd : Bytes := none
  deriving DecidableEq

/-- Modelled from the spec: the struct `pb.RequestUnion` of the generated
package: three pointers, each nil (`none`) in `&pb.RequestUnion{}`. -/
structure RequestUnion where
  RequestRange : Option RangeRequest := none
  RequestPut : Option PutRequest := none
  RequestDeleteRange : Option DeleteRangeRequest := none
  deriving DecidableEq

/-- Modelled from the spec: the struct `pb.TxnRequest` of the generated package:
three slices, nil (empty) in `&pb.TxnRequest{}`. -/
structure TxnRequest where
  Compare : List Compare := []
  Success : List RequestUnion := []
  Failure : List RequestUnion := []
  deriving DecidableEq

end pb

/-! ## The two line grammars -/

/-- The text of the error of `parseCompare`, and of the first error of
`parseRequestUnion`. -/
def msgCompare : GoString := str "invalid txn compare request: "

/-- The text of the second error of `parseRequestUnion`. -/
def msgRequest : GoString := str "invalid txn request: "

/-- The function `parseRequestUnion(line)`. -/
def parseRequestUnion (line : GoString) : Go pb.RequestUnion := do
  let parts := strings.Split line sp
  if parts.length < 2 then
    Go.fail (fmt.Errorf msgCompare line)
  else
    let ru : pb.RequestUnion := {}
    let key := toBytes (← index parts 1)
    let p0 ← index parts 0
    if p0 = str "r" ∨ p0 = str "range" then
      let ru := { ru with RequestRange := some { Key := key } }
      if parts.length = 3 then
        let p2 ← index parts 2
        match ru.RequestRange with
        | none => Go.panic .nilDereference
        | some rr => pure { ru with RequestRange := some { rr with RangeEnd := toBytes p2 } }
      else pure ru
    else if p0 = str "p" ∨ p0 = str "put" then
      let p2 ← index parts 2
      pure { ru with RequestPut := some { Key := key, Value := toBytes p2 } }
    else if p0 = str "d" ∨ p0 = str "deleteRange" then
      let ru := { ru with RequestDeleteRange := some { Key := key } }
      if parts.length = 3 then
        let p2 ← index parts 2
        match ru.RequestRange with
        | none => Go.panic .nilDereference
        | some rr => pure { ru with RequestRange := some { rr with RangeEnd := toBytes p2 } }
      else pure ru
    else
      Go.fail (fmt.Errorf msgRequest line)

/-- The assignment `c.X, err = strconv.ParseInt(parts[3], 10, 64)` followed by
the return of the error of `parseCompare` when `err` is not nil: the parsed
number otherwise. -/
def parseField (line : GoString) (parts : List GoString) : Go Int := do
  let p3 ← index parts 3
  match strconv.ParseInt p3 10 64 with
  | (v, none) => pure v
  | (_, some _) => Go.fail (fmt.Errorf msgCompare line)

/-- The function `parseCompare(line)`. -/
def parseCompare (line : GoString) : Go pb.Compare := do
  let parts := strings.Split line sp
  if parts.length ≠ 4 then
    Go.fail (fmt.Errorf msgCompare line)
  else
    let c : pb.Compare := {}
    let c := { c with Key := toBytes (← index parts 0) }
    let p1 ← index parts 1
    let c ←
      if p1 = str "ver" ∨ p1 = str "version" then do
        let c := { c with Target := pb.Compare_VERSION }
        let v ← parseField line parts
        pure { c with Version := v }
      else if p1 = str "c" ∨ p1 = str "create" then do
        let c := { c with Target := pb.Compare_CREATE }
        let v ← parseField line parts
        pure { c with CreateRevision := v }
      else if p1 = str "m" ∨ p1 = str "mod" then do
        let c := { c with Target := pb.Compare_MOD }
        let v ← parseField line parts
        pure { c with ModRevision := v }
      else if p1 = str "val" ∨ p1 = str "value" then do
        let c := { c with Target := pb.Compare_VALUE }
        let p3 ← index parts 3
        pure { c with Value := toBytes p3 }
      else
        Go.fail (fmt.Errorf msgCompare line)
    let p2 ← index parts 2
    if p2 = str "g" ∨ p2 = str "greater" then
      pure { c with Result := pb.Compare_GREATER }
    else if p2 = str "e" ∨ p2 = str "equal" then
      pure { c with Result := pb.Compare_EQUAL }
    else if p2 = str "l" ∨ p2 = str "less" then
      pure { c with Result := pb.Compare_LESS }
    else
      Go.fail (fmt.Errorf msgCompare line)

/-! ## The collector -/

namespace bufio

/-- A `*bufio.Reader` on standard input: the bytes not yet read. Standard input
is a finite sequence of bytes followed by the end of the file. -/
structure Reader where
  unread : GoString
  deriving DecidableEq

/-- Reading from the bytes `s` up to and including the first `delim`: the bytes
read, the error, and the bytes left. -/
def readUntil : GoString → Byte → (GoString × Option GoError) × GoString
  | [], _ => (([], some .EOF), [])
  | b :: bs, delim =>
    if b = delim then (([b], none), bs)
    else
      match readUntil bs delim with
      | ((l, e), rest) => ((b :: l, e), rest)

/-- Modelled from the spec: the method `ReadString` of `bufio.Reader` of the Go
standard library, which is not among the sources; the specification has the
collector request one line from the input stream, with a read failure at the end
of the input. The result of `r.ReadString(delim)` is the bytes up to and
including the first `delim`, with a nil error; when the input ends before a
`delim`, the bytes read before the end together with `io.EOF`. The reader that is
returned holds what is left. -/
def Reader.ReadString (r : Reader) (delim : Byte) : (GoString × Option GoError) × Reader :=
  match readUntil r.unread delim with
  | (res, rest) => (res, ⟨rest⟩)

end bufio

/-- The non-nil values of type `stateFunc`: the three step functions. The nil
`stateFunc`, which ends the loop, is `none` of `Option stateFunc`. -/
inductive stateFunc where
  | compare
  | success
  | failure
  deriving DecidableEq

/-- What a step function leaves behind when it returns: the next step function,
the request and the reader. -/
abbrev Step := Option stateFunc × pb.TxnRequest × bufio.Reader

/-- Modelled from the spec: `ExitWithError(code, err)`, defined in a file that
is not among the sources: the process aborts at once, nothing is submitted. -/
def ExitWithError {α : Type} (code : ExitCode) (err : GoError) : Go α :=
  .exit code err

/-- A parser called from a step function: its returned error goes to
`ExitWithError(ExitInvalidInput, err)`. -/
def orExit {α : Type} (x : Go α) : Go α :=
  match x with
  | .fail e => ExitWithError .ExitInvalidInput e
  | y => y

/-- The step function `compareState(txn, r)`. -/
def compareState (txn : pb.TxnRequest) (r : bufio.Reader) : Go Step :=
  match r.ReadString nl with
  | ((_, some err), _) => ExitWithError .ExitInvalidInput err
  | ((line, none), r) => do
    if line.length = 1 then
      pure (some .success, txn, r)
    else
      let line ← sliceTo line ((line.length : Int) - 1)
      let c ← orExit (parseCompare line)
      pure (some .compare, { txn with Compare := txn.Compare ++ [c] }, r)

/-- The step function `successState(txn, r)`. -/
def successState (txn : pb.TxnRequest) (r : bufio.Reader) : Go Step :=
  match r.ReadString nl with
  | ((_, some err), _) => ExitWithError .ExitInvalidInput err
  | ((line, none), r) => do
    if line.length = 1 then
      pure (some .failure, txn, r)
    else
      let line ← sliceTo line ((line.length : Int) - 1)
      let ru ← orExit (parseRequestUnion line)
      pure (some .success, { txn with Success := txn.Success ++ [ru] }, r)

/-- The step function `failureState(txn, r)`. -/
def failureState (txn : pb.TxnRequest) (r : bufio.Reader) : Go Step :=
  match r.ReadString nl with
  | ((_, some err), _) => ExitWithError .ExitInvalidInput err
  | ((line, none), r) => do
    if line.length = 1 then
      pure (none, txn, r)
    else
      let line ← sliceTo line ((line.length : Int) - 1)
      let ru ← orExit (parseRequestUnion line)
      pure (some .failure, { txn with Failure := txn.Failure ++ [ru] }, r)

/-- The call `next(txn, reader)` of a non-nil `stateFunc`. -/
def stateFunc.call (next : stateFunc) (txn : pb.TxnRequest) (r : bufio.Reader) : Go Step :=
  match next with
  | .compare => compareState txn r
  | .success => successState txn r
  | .failure => failureState txn r

/-- The loop `for next != nil { next = next(txn, reader) }`, run for at most
`fuel` iterations: `none` when the iterations do not suffice, otherwise the
outcome, which on normal termination is the request and the reader. -/
def collectLoop : Nat → Option stateFunc → pb.TxnRequest → bufio.Reader →
    Option (Go (pb.TxnRequest × bufio.Reader))
  | _, none, txn, r => some (.ok (txn, r))
  | 0, some _, _, _ => none
  | fuel + 1, some next, txn, r =>
    match next.call txn r with
    | .ok (next1, txn1, r1) => collectLoop fuel next1 txn1 r1
    | .fail e => some (.fail e)
    | .exit code e => some (.exit code e)
    | .panic p => some (.panic p)

/-- The collector: lines 45 to 51 of `txnCommandFunc`, on the standard input
`stdin`. Every iteration that does not end the process reads at least one byte,
so one iteration more than there are bytes always suffices. -/
def txnCollect (stdin : GoString) : Option (Go (pb.TxnRequest × bufio.Reader)) :=
  collectLoop (stdin.length + 1) (some .compare) {} ⟨stdin⟩

/-! ## Auxiliary definitions used in the proofs -/

/-- Proof device: an integer case of the target switch of `parseCompare`, from
field 4 and the comparison `k v` built from the parsed number `v`. -/
def intPayload (line f4 : GoString) (k : Int → pb.Compare) : Go pb.Compare :=
  match strconv.ParseInt f4 10 64 with
  | (v, none) => Go.ok (k v)
  | (_, some _) => Go.fail (fmt.Errorf msgCompare line)

/-- Proof device: the operator switch of `parseCompare`, on field 3. -/
def withResult (line f3 : GoString) (c : pb.Compare) : Go pb.Compare :=
  if f3 = str "g" ∨ f3 = str "greater" then Go.ok { c with Result := pb.Compare_GREATER }
  else if f3 = str "e" ∨ f3 = str "equal" then Go.ok { c with Result := pb.Compare_EQUAL }
  else if f3 = str "l" ∨ f3 = str "less" then Go.ok { c with Result := pb.Compare_LESS }
  else Go.fail (fmt.Errorf msgCompare line)

/-- Proof device: the target switch of `parseCompare`, on the fields 1, 2 and 4. -/
def withTarget (line f1 f2 f4 : GoString) : Go pb.Compare :=
  if f2 = str "ver" ∨ f2 = str "version" then
    intPayload line f4 (fun v => { Key := some f1, Target := pb.Compare_VERSION, Version := v })
  else if f2 = str "c" ∨ f2 = str "create" then
    intPayload line f4 (fun v => { Key := some f1, Target := pb.Compare_CREATE, CreateRevision := v })
  else if f2 = str "m" ∨ f2 = str "mod" then
    intPayload line f4 (fun v => { Key := some f1, Target := pb.Compare_MOD, ModRevision := v })
  else if f2 = str "val" ∨ f2 = str "value" then
    Go.ok { Key := some f1, Target := pb.Compare_VALUE, Value := some f4 }
  else Go.fail (fmt.Errorf msgCompare line)

/-- Proof device: the common shape of the three step functions, with the parser
`parse`, the append `add` to the list of the state, the state `same` itself and
the state `next` that an empty line leads to. -/
def lineStep {α : Type} (parse : GoString → Go α)
    (add : pb.TxnRequest → α → pb.TxnRequest) (same : stateFunc) (next : Option stateFunc)
    (txn : pb.TxnRequest) (r : bufio.Reader) : Go Step :=
  match r.ReadString nl with
  | ((_, some err), _) => ExitWithError .ExitInvalidInput err
  | ((line, none), r) => do
    if line.length = 1 then
      pure (next, txn, r)
    else
      let line ← sliceTo line ((line.length : Int) - 1)
      let a ← orExit (parse line)
      pure (some same, add txn a, r)

/-- The input made of the given lines, each followed by the line terminator. -/
def writeLines : List GoString → GoString
  | [] => []
  | l :: ls => l ++ nl :: writeLines ls

/-- The number of empty lines of an input: of the pieces that end with a line
terminator (the last piece of the split does not), those without content. -/
def emptyLines (stdin : GoString) : Nat :=
  ((strings.Split stdin nl).dropLast).count []

/-- The append of `compareState`. -/
def addCompare (t : pb.TxnRequest) (c : pb.Compare) : pb.TxnRequest :=
  { t with Compare := t.Compare ++ [c] }

/-- The append of `successState`. -/
def addSuccess (t : pb.TxnRequest) (u : pb.RequestUnion) : pb.TxnRequest :=
  { t with Success := t.Success ++ [u] }

/-- The append of `failureState`. -/
def addFailure (t : pb.TxnRequest) (u : pb.RequestUnion) : pb.TxnRequest :=
  { t with Failure := t.Failure ++ [u] }

/-- The call returned normally. -/
def Go.completed {α : Type} : Go α → Bool
  | .ok _ => true
  | _ => false

/-- The call ended the process: by `ExitWithError` or by a panic. -/
def Go.aborted {α : Type} : Go α → Bool
  | .exit _ _ => true
  | .panic _ => true
  | _ => false

/-- The place of a state in the order COMPARE, SUCCESS, FAILURE, TERMINAL, the
nil `stateFunc` being TERMINAL. -/
def stateRank : Option stateFunc → Nat
  | some .compare => 0
  | some .success => 1
  | some .failure => 2
  | none => 3

/-- The states that the loop `for next != nil { next = next(txn, reader) }`
passes through in at most `fuel` iterations: the value of `next` at each test of
the loop condition, in order. -/
def collectTrace : Nat → Option stateFunc → pb.TxnRequest → bufio.Reader →
    List (Option stateFunc)
  | _, none, _, _ => [none]
  | 0, some st, _, _ => [some st]
  | fuel + 1, some st, txn, r =>
    some st ::
      match st.call txn r with
      | .ok (next1, txn1, r1) => collectTrace fuel next1 txn1 r1
      | _ => []

/-- A Go call that may write to the request `*txn`. The request lives in memory
and is still there when a call ends the process, so a call is taken from the
request at the call to the pair of its outcome and of the request in memory at
the moment it ends, however it ends. -/
def Mem (α : Type) : Type := pb.TxnRequest → Go α × pb.TxnRequest

/-- Sequencing of statements that may write to the request: the statements after
one that does not return normally are not run, and the request stays as that
statement left it. -/
def Mem.bind {α β : Type} (x : Mem α) (f : α → Mem β) : Mem β := fun t =>
  match x t with
  | (.ok a, t1) => f a t1
  | (.fail e, t1) => (.fail e, t1)
  | (.exit c e, t1) => (.exit c e, t1)
  | (.panic p, t1) => (.panic p, t1)

instance : Monad Mem where
  pure a := fun t => (.ok a, t)
  bind := Mem.bind

/-- A call that is not given the request (`r.ReadString`, a slice expression,
`parseCompare`, `parseRequestUnion`, `ExitWithError`): its outcome, with the
request untouched. -/
def Mem.call {α : Type} (x : Go α) : Mem α := fun t => (x, t)

/-- A read of the request `*txn`. -/
def Mem.load : Mem pb.TxnRequest := fun t => (.ok t, t)

/-- A write of the request `*txn`. -/
def Mem.store (t1 : pb.TxnRequest) : Mem Unit := fun _ => (.ok (), t1)

/-- The step function `compareState(txn, r)` with the request in memory threaded
through its statements, aborts included: the read, the test of the read error,
the test for the empty line, the slice, the parse and the test of its error, and
only then the assignment `txn.Compare = append(txn.Compare, c)`. -/
def compareStateMem (r : bufio.Reader) : Mem (Option stateFunc × bufio.Reader) :=
  match r.ReadString nl with
  | ((_, some err), _) => Mem.call (ExitWithError .ExitInvalidInput err)
  | ((line, none), r) => do
    if line.length = 1 then
      pure (some .success, r)
    else
      let line ← Mem.call (sliceTo line ((line.length : Int) - 1))
      let c ← Mem.call (orExit (parseCompare line))
      let txn ← Mem.load
      Mem.store { txn with Compare := txn.Compare ++ [c] }
      pure (some .compare, r)

/-- The step function `successState(txn, r)` with the request in memory threaded
through its statements, aborts included; the assignment
`txn.Success = append(txn.Success, ru)` comes after the test of the parse error. -/
def successStateMem (r : bufio.Reader) : Mem (Option stateFunc × bufio.Reader) :=
  match r.ReadString nl with
  | ((_, some err), _) => Mem.call (ExitWithError .ExitInvalidInput err)
  | ((line, none), r) => do
    if line.length = 1 then
      pure (some .failure, r)
    else
      let line ← Mem.call (sliceTo line ((line.length : Int) - 1))
      let ru ← Mem.call (orExit (parseRequestUnion line))
      let txn ← Mem.load
      Mem.store { txn with Success := txn.Success ++ [ru] }
      pure (some .success, r)

/-- The step function `failureState(txn, r)` with the request in memory threaded
through its statements, aborts included; the assignment
`txn.Failure = append(txn.Failure, ru)` comes after the test of the parse error. -/
def failureStateMem (r : bufio.Reader) : Mem (Option stateFunc × bufio.Reader) :=
  match r.ReadString nl with
  | ((_, some err), _) => Mem.call (ExitWithError .ExitInvalidInput err)
  | ((line, none), r) => do
    if line.length = 1 then
      pure (none, r)
    else
      let line ← Mem.call (sliceTo line ((line.length : Int) - 1))
      let ru ← Mem.call (orExit (parseRequestUnion line))
      let txn ← Mem.load
      Mem.store { txn with Failure := txn.Failure ++ [ru] }
      pure (some .failure, r)

/-- The outcome of a step in the form of the step functions above: a normal
return hands on the request that is in memory. -/
def returned (x : Go (Option stateFunc × bufio.Reader) × pb.TxnRequest) : Go Step :=
  match x with
  | (.ok (n, r), t) => .ok (n, t, r)
  | (.fail e, _) => .fail e
  | (.exit c e, _) => .exit c e
  | (.panic p, _) => .panic p

/-- Proof device: the common shape of the three step functions with the request
in memory threaded through, as `lineStep` is for the step functions. -/
def lineStepMem {α : Type} (parse : GoString → Go α)
    (add : pb.TxnRequest → α → pb.TxnRequest) (same : stateFunc) (next : Option stateFunc)
    (r : bufio.Reader) : Mem (Option stateFunc × bufio.Reader) :=
  match r.ReadString nl with
  | ((_, some err), _) => Mem.call (ExitWithError .ExitInvalidInput err)
  | ((line, none), r) => do
    if line.length = 1 then
      pure (next, r)
    else
      let line ← Mem.call (sliceTo line ((line.length : Int) - 1))
      let a ← Mem.call (orExit (parse line))
      let txn ← Mem.load
      Mem.store (add txn a)
      pure (some same, r)

/-- An ASCII decimal digit: a byte from `0` to `9`. -/
def isDigit (d : Byte) : Bool := decide (48 ≤ d.val ∧ d.val ≤ 57)

/-- The number that the decimal digits `ds` denote when they follow digits that
denote `acc`. -/
def decimalFrom (acc : Nat) (ds : GoString) : Nat :=
  ds.foldl (fun a d => 10 * a + (d.val - 48)) acc

/-- The number that the decimal digits `ds` denote. -/
def decimalValue (ds : GoString) : Nat := decimalFrom 0 ds

/-- The specification's base-10 signed 64-bit integer: the integer that `s`
denotes when `s` is an optional single sign `+` or `-` followed by one or more
ASCII decimal digits and the integer lies between `-2^63` and `2^63 - 1`;
nothing otherwise. -/
def int64Literal (s : GoString) : Option Int :=
  let neg := s.head? = some 45
  let digits := if s.head? = some 43 ∨ s.head? = some 45 then s.drop 1 else s
  if digits ≠ [] ∧ digits.all isDigit = true then
    let n : Int := if neg then -(decimalValue digits : Int) else (decimalValue digits : Int)
    if -(2 : Int) ^ 63 ≤ n ∧ n ≤ 2 ^ 63 - 1 then some n else none
  else none

/-! ## Lemmas on the outcome monad and on `parseCompare` -/

@[simp] theorem Go.ok_bind {α β : Type} (v : α) (f : α → Go β) : (Go.ok v >>= f) = f v := rfl

@[simp] theorem Go.fail_bind {α β : Type} (e : GoError) (f : α → Go β) : (Go.fail e >>= f) = Go.fail e := rfl

@[simp] theorem Go.exit_bind {α β : Type} (c : ExitCode) (e : GoError) (f : α → Go β) :
    (Go.exit c e >>= f) = Go.exit c e := rfl

@[simp] theorem Go.panic_bind {α β : Type} (p : Panic) (f : α → Go β) : (Go.panic p >>= f) = Go.panic p := rfl

@[simp] theorem Go.pure_eq {α : Type} (v : α) : (pure v : Go α) = Go.ok v := rfl

theorem parseCompare_eq {line f1 f2 f3 f4 : GoString}
    (h : strings.Split line sp = [f1, f2, f3, f4]) :
    parseCompare line = withTarget line f1 f2 f4 >>= withResult line f3 := by
  unfold parseCompare withTarget
  simp only [h]
  rcases hp : strconv.ParseInt f4 10 64 with ⟨v, _ | e⟩ <;>
    simp [index, parseField, toBytes, intPayload, withResult, hp] <;>
    split_ifs <;> simp_all [withResult]

theorem parseCompare_of_length {line : GoString} (h : (strings.Split line sp).length ≠ 4) :
    parseCompare line = Go.fail (fmt.Errorf msgCompare line) := by
  unfold parseCompare
  simp [h]

theorem Go.bind_eq_ok {α β : Type} {x : Go α} {f : α → Go β} {b : β} :
    (x >>= f) = Go.ok b ↔ ∃ a, x = Go.ok a ∧ f a = Go.ok b := by
  cases x <;> simp [Bind.bind, Go.bind]

theorem intPayload_eq_ok {line f4 : GoString} {k : Int → pb.Compare} {c : pb.Compare} :
    intPayload line f4 k = Go.ok c ↔
      ∃ v, strconv.ParseInt f4 10 64 = (v, none) ∧ c = k v := by
  unfold intPayload
  rcases hp : strconv.ParseInt f4 10 64 with ⟨v, _ | e⟩ <;> simp [eq_comm]

theorem intPayload_ok_or_fail (line f4 : GoString) (k : Int → pb.Compare) :
    (∃ c, intPayload line f4 k = Go.ok c) ∨
      intPayload line f4 k = Go.fail (fmt.Errorf msgCompare line) := by
  unfold intPayload
  rcases hp : strconv.ParseInt f4 10 64 with ⟨v, _ | e⟩ <;> simp

theorem intPayload_ok_iff (line f4 : GoString) (k : Int → pb.Compare) :
    (∃ c, intPayload line f4 k = Go.ok c) ↔ (strconv.ParseInt f4 10 64).2 = none := by
  unfold intPayload
  rcases hp : strconv.ParseInt f4 10 64 with ⟨v, _ | e⟩ <;> simp

theorem withTarget_ok_or_fail (line f1 f2 f4 : GoString) :
    (∃ c, withTarget line f1 f2 f4 = Go.ok c) ∨
      withTarget line f1 f2 f4 = Go.fail (fmt.Errorf msgCompare line) := by
  unfold withTarget
  split_ifs
  · exact intPayload_ok_or_fail _ _ _
  · exact intPayload_ok_or_fail _ _ _
  · exact intPayload_ok_or_fail _ _ _
  · simp
  · simp

theorem withResult_ok_or_fail (line f3 : GoString) (c : pb.Compare) :
    (∃ c1, withResult line f3 c = Go.ok c1) ∨
      withResult line f3 c = Go.fail (fmt.Errorf msgCompare line) := by
  unfold withResult
  split_ifs <;> simp

theorem withResult_ok_iff (line f3 : GoString) (c : pb.Compare) :
    (∃ c1, withResult line f3 c = Go.ok c1) ↔
      f3 ∈ [str "g", str "greater", str "e", str "equal", str "l", str "less"] := by
  unfold withResult
  split_ifs with h1 h2 h3 <;> simp <;> tauto

theorem token_facts :
    str "ver" ≠ str "val" ∧ str "ver" ≠ str "value" ∧
    str "version" ≠ str "val" ∧ str "version" ≠ str "value" ∧
    str "c" ≠ str "val" ∧ str "c" ≠ str "value" ∧
    str "create" ≠ str "val" ∧ str "create" ≠ str "value" ∧
    str "m" ≠ str "val" ∧ str "m" ≠ str "value" ∧
    str "mod" ≠ str "val" ∧ str "mod" ≠ str "value" := by decide

theorem withTarget_ok_iff (line f1 f2 f4 : GoString) :
    (∃ c, withTarget line f1 f2 f4 = Go.ok c) ↔
      f2 ∈ [str "ver", str "version", str "c", str "create", str "m", str "mod",
          str "val", str "value"] ∧
        (f2 ≠ str "val" ∧ f2 ≠ str "value" → (strconv.ParseInt f4 10 64).2 = none) := by
  obtain ⟨t1, t2, t3, t4, t5, t6, t7, t8, t9, t10, t11, t12⟩ := token_facts
  have hne : ∀ a : GoString, a ≠ str "val" → a ≠ str "value" → ∀ b : GoString, b = a →
      (b ≠ str "val" ∧ b ≠ str "value") := by
    rintro a h1 h2 b rfl
    exact ⟨h1, h2⟩
  unfold withTarget
  split_ifs with h1 h2 h3 h4
  · rw [intPayload_ok_iff]
    have hn : f2 ≠ str "val" ∧ f2 ≠ str "value" := by
      rcases h1 with h | h
      · exact hne _ t1 t2 _ h
      · exact hne _ t3 t4 _ h
    have hm : f2 ∈ [str "ver", str "version", str "c", str "create", str "m", str "mod",
          str "val", str "value"] := by
      rcases h1 with h | h <;> simp [h]
    exact ⟨fun hp => ⟨hm, fun _ => hp⟩, fun h => h.2 hn⟩
  · rw [intPayload_ok_iff]
    have hn : f2 ≠ str "val" ∧ f2 ≠ str "value" := by
      rcases h2 with h | h
      · exact hne _ t5 t6 _ h
      · exact hne _ t7 t8 _ h
    have hm : f2 ∈ [str "ver", str "version", str "c", str "create", str "m", str "mod",
          str "val", str "value"] := by
      rcases h2 with h | h <;> simp [h]
    exact ⟨fun hp => ⟨hm, fun _ => hp⟩, fun h => h.2 hn⟩
  · rw [intPayload_ok_iff]
    have hn : f2 ≠ str "val" ∧ f2 ≠ str "value" := by
      rcases h3 with h | h
      · exact hne _ t9 t10 _ h
      · exact hne _ t11 t12 _ h
    have hm : f2 ∈ [str "ver", str "version", str "c", str "create", str "m", str "mod",
          str "val", str "value"] := by
      rcases h3 with h | h <;> simp [h]
    exact ⟨fun hp => ⟨hm, fun _ => hp⟩, fun h => h.2 hn⟩
  · have hm : f2 ∈ [str "ver", str "version", str "c", str "create", str "m", str "mod",
          str "val", str "value"] := by
      rcases h4 with h | h <;> simp [h]
    refine ⟨fun _ => ⟨hm, fun hn => ?_⟩, fun _ => ⟨_, rfl⟩⟩
    rcases h4 with h | h
    · exact absurd h hn.1
    · exact absurd h hn.2
  · constructor
    · rintro ⟨c, hc⟩
      simp at hc
    · rintro ⟨h, -⟩
      simp only [List.mem_cons, List.mem_singleton, List.not_mem_nil, or_false] at h
      rcases h with h | h | h | h | h | h | h | h
      · exact absurd (Or.inl h) h1
      · exact absurd (Or.inr h) h1
      · exact absurd (Or.inl h) h2
      · exact absurd (Or.inr h) h2
      · exact absurd (Or.inl h) h3
      · exact absurd (Or.inr h) h3
      · exact absurd (Or.inl h) h4
      · exact absurd (Or.inr h) h4

/-- C1: `parseCompare` succeeds exactly when the line splits on single spaces
into four fields, field 2 is one of the eight target tokens, field 3 one of the
six operator tokens and, unless field 2 is `val` or `value`, field 4 is accepted
by `strconv.ParseInt(_, 10, 64)`; in every other case it returns the error
"invalid txn compare request: " followed by the line, so it never panics. -/
theorem parseCompare_succeeds_iff (line : GoString) :
    ((∃ c, parseCompare line = Go.ok c) ↔
      ∃ f1 f2 f3 f4, strings.Split line sp = [f1, f2, f3, f4] ∧
        f2 ∈ [str "ver", str "version", str "c", str "create", str "m", str "mod",
          str "val", str "value"] ∧
        f3 ∈ [str "g", str "greater", str "e", str "equal", str "l", str "less"] ∧
        (f2 ≠ str "val" ∧ f2 ≠ str "value" → (strconv.ParseInt f4 10 64).2 = none)) ∧
    ((¬ ∃ c, parseCompare line = Go.ok c) →
      parseCompare line = Go.fail (fmt.Errorf msgCompare line)) := by
  by_cases hlen : (strings.Split line sp).length = 4
  · obtain ⟨f1, f2, f3, f4, hs⟩ : ∃ f1 f2 f3 f4, strings.Split line sp = [f1, f2, f3, f4] := by
      rcases hsp : strings.Split line sp with _ | ⟨f1, _ | ⟨f2, _ | ⟨f3, _ | ⟨f4, _ | ⟨f5, t⟩⟩⟩⟩⟩ <;>
        simp [hsp] at hlen
      exact ⟨f1, f2, f3, f4, rfl⟩
    rw [parseCompare_eq hs]
    have key : (∃ c, (withTarget line f1 f2 f4 >>= withResult line f3) = Go.ok c) ↔
        (∃ c, withTarget line f1 f2 f4 = Go.ok c) ∧
          f3 ∈ [str "g", str "greater", str "e", str "equal", str "l", str "less"] := by
      constructor
      · rintro ⟨c, hc⟩
        obtain ⟨a, ha, hr⟩ := Go.bind_eq_ok.mp hc
        exact ⟨⟨a, ha⟩, (withResult_ok_iff line f3 a).mp ⟨c, hr⟩⟩
      · rintro ⟨⟨a, ha⟩, h3⟩
        obtain ⟨c, hc⟩ := (withResult_ok_iff line f3 a).mpr h3
        exact ⟨c, Go.bind_eq_ok.mpr ⟨a, ha, hc⟩⟩
    refine ⟨?_, ?_⟩
    · rw [key, withTarget_ok_iff]
      constructor
      · rintro ⟨⟨h2, hp⟩, h3⟩
        exact ⟨f1, f2, f3, f4, hs, h2, h3, hp⟩
      · rintro ⟨g1, g2, g3, g4, hg, h2, h3, hp⟩
        rw [hs] at hg
        simp only [List.cons.injEq, and_true] at hg
        obtain ⟨rfl, rfl, rfl, rfl⟩ := hg
        exact ⟨⟨h2, hp⟩, h3⟩
    · intro hno
      rcases withTarget_ok_or_fail line f1 f2 f4 with ⟨a, ha⟩ | hf
      · rcases withResult_ok_or_fail line f3 a with ⟨c, hc⟩ | hf
        · exact absurd ⟨c, Go.bind_eq_ok.mpr ⟨a, ha, hc⟩⟩ hno
        · simp [ha, hf]
      · simp [hf]
  · rw [parseCompare_of_length hlen]
    refine ⟨⟨fun ⟨c, hc⟩ => by simp at hc, ?_⟩, fun _ => rfl⟩
    rintro ⟨f1, f2, f3, f4, hs, -⟩
    simp [hs] at hlen

theorem target_ver_c {f : GoString} (h : f = str "ver" ∨ f = str "version") :
    ¬ (f = str "c" ∨ f = str "create") := by
  rcases h with rfl | rfl <;> decide

theorem target_ver_m {f : GoString} (h : f = str "ver" ∨ f = str "version") :
    ¬ (f = str "m" ∨ f = str "mod") := by
  rcases h with rfl | rfl <;> decide

theorem target_ver_val {f : GoString} (h : f = str "ver" ∨ f = str "version") :
    ¬ (f = str "val" ∨ f = str "value") := by
  rcases h with rfl | rfl <;> decide

theorem target_c_m {f : GoString} (h : f = str "c" ∨ f = str "create") :
    ¬ (f = str "m" ∨ f = str "mod") := by
  rcases h with rfl | rfl <;> decide

theorem target_c_val {f : GoString} (h : f = str "c" ∨ f = str "create") :
    ¬ (f = str "val" ∨ f = str "value") := by
  rcases h with rfl | rfl <;> decide

theorem target_m_val {f : GoString} (h : f = str "m" ∨ f = str "mod") :
    ¬ (f = str "val" ∨ f = str "value") := by
  rcases h with rfl | rfl <;> decide

theorem result_g_e {f : GoString} (h : f = str "g" ∨ f = str "greater") :
    ¬ (f = str "e" ∨ f = str "equal") := by
  rcases h with rfl | rfl <;> decide

theorem result_g_l {f : GoString} (h : f = str "g" ∨ f = str "greater") :
    ¬ (f = str "l" ∨ f = str "less") := by
  rcases h with rfl | rfl <;> decide

theorem result_e_l {f : GoString} (h : f = str "e" ∨ f = str "equal") :
    ¬ (f = str "l" ∨ f = str "less") := by
  rcases h with rfl | rfl <;> decide

theorem withTarget_ok {line f1 f2 f4 : GoString} {a : pb.Compare}
    (h : withTarget line f1 f2 f4 = Go.ok a) :
    a.Key = some f1 ∧
    ((f2 = str "ver" ∨ f2 = str "version") →
      a.Target = pb.Compare_VERSION ∧ strconv.ParseInt f4 10 64 = (a.Version, none)) ∧
    ((f2 = str "c" ∨ f2 = str "create") →
      a.Target = pb.Compare_CREATE ∧ strconv.ParseInt f4 10 64 = (a.CreateRevision, none)) ∧
    ((f2 = str "m" ∨ f2 = str "mod") →
      a.Target = pb.Compare_MOD ∧ strconv.ParseInt f4 10 64 = (a.ModRevision, none)) ∧
    ((f2 = str "val" ∨ f2 = str "value") →
      a.Target = pb.Compare_VALUE ∧ a.Value = some f4) := by
  unfold withTarget at h
  split_ifs at h with h1 h2 h3 h4
  · obtain ⟨v, hp, rfl⟩ := intPayload_eq_ok.mp h
    exact ⟨rfl, fun _ => ⟨rfl, hp⟩, fun hx => absurd hx (target_ver_c h1),
      fun hx => absurd hx (target_ver_m h1), fun hx => absurd hx (target_ver_val h1)⟩
  · obtain ⟨v, hp, rfl⟩ := intPayload_eq_ok.mp h
    exact ⟨rfl, fun hx => absurd hx h1, fun _ => ⟨rfl, hp⟩,
      fun hx => absurd hx (target_c_m h2), fun hx => absurd hx (target_c_val h2)⟩
  · obtain ⟨v, hp, rfl⟩ := intPayload_eq_ok.mp h
    exact ⟨rfl, fun hx => absurd hx h1, fun hx => absurd hx h2, fun _ => ⟨rfl, hp⟩,
      fun hx => absurd hx (target_m_val h3)⟩
  · cases h
    exact ⟨rfl, fun hx => absurd hx h1, fun hx => absurd hx h2, fun hx => absurd hx h3,
      fun _ => ⟨rfl, rfl⟩⟩

theorem withResult_ok {line f3 : GoString} {a c : pb.Compare}
    (h : withResult line f3 a = Go.ok c) :
    (∃ r, c = { a with Result := r }) ∧
    ((f3 = str "g" ∨ f3 = str "greater") → c.Result = pb.Compare_GREATER) ∧
    ((f3 = str "e" ∨ f3 = str "equal") → c.Result = pb.Compare_EQUAL) ∧
    ((f3 = str "l" ∨ f3 = str "less") → c.Result = pb.Compare_LESS) := by
  unfold withResult at h
  split_ifs at h with h1 h2 h3
  · cases h
    exact ⟨⟨_, rfl⟩, fun _ => rfl, fun hx => absurd hx (result_g_e h1),
      fun hx => absurd hx (result_g_l h1)⟩
  · cases h
    exact ⟨⟨_, rfl⟩, fun hx => absurd hx h1, fun _ => rfl, fun hx => absurd hx (result_e_l h2)⟩
  · cases h
    exact ⟨⟨_, rfl⟩, fun hx => absurd hx h1, fun hx => absurd hx h2, fun _ => rfl⟩

theorem parseCompare_fields_of_ok {line : GoString} {c : pb.Compare}
    (h : parseCompare line = Go.ok c) :
    ∃ f1 f2 f3 f4 a, strings.Split line sp = [f1, f2, f3, f4] ∧
      withTarget line f1 f2 f4 = Go.ok a ∧ withResult line f3 a = Go.ok c := by
  by_cases hlen : (strings.Split line sp).length = 4
  · obtain ⟨f1, f2, f3, f4, hs⟩ : ∃ f1 f2 f3 f4, strings.Split line sp = [f1, f2, f3, f4] := by
      rcases hsp : strings.Split line sp with _ | ⟨f1, _ | ⟨f2, _ | ⟨f3, _ | ⟨f4, _ | ⟨f5, t⟩⟩⟩⟩⟩ <;>
        simp [hsp] at hlen
      exact ⟨f1, f2, f3, f4, rfl⟩
    rw [parseCompare_eq hs] at h
    obtain ⟨a, ha, hr⟩ := Go.bind_eq_ok.mp h
    exact ⟨f1, f2, f3, f4, a, hs, ha, hr⟩
  · rw [parseCompare_of_length hlen] at h
    cases h

/-- C2: when `parseCompare` succeeds the comparison has the bytes of field 1 as
key, the target selected by field 2, the operator selected by field 3 and the
payload of field 4: the number parsed by `strconv.ParseInt` for the three integer
targets, the bytes of the field for VALUE. The two lines of the specification
evaluate to the comparisons it gives. -/
theorem parseCompare_result :
    (∀ (line : GoString) (c : pb.Compare), parseCompare line = Go.ok c →
      ∃ f1 f2 f3 f4, strings.Split line sp = [f1, f2, f3, f4] ∧
        c.Key = some f1 ∧
        ((f2 = str "ver" ∨ f2 = str "version") →
          c.Target = pb.Compare_VERSION ∧ strconv.ParseInt f4 10 64 = (c.Version, none)) ∧
        ((f2 = str "c" ∨ f2 = str "create") →
          c.Target = pb.Compare_CREATE ∧ strconv.ParseInt f4 10 64 = (c.CreateRevision, none)) ∧
        ((f2 = str "m" ∨ f2 = str "mod") →
          c.Target = pb.Compare_MOD ∧ strconv.ParseInt f4 10 64 = (c.ModRevision, none)) ∧
        ((f2 = str "val" ∨ f2 = str "value") →
          c.Target = pb.Compare_VALUE ∧ c.Value = some f4) ∧
        ((f3 = str "g" ∨ f3 = str "greater") → c.Result = pb.Compare_GREATER) ∧
        ((f3 = str "e" ∨ f3 = str "equal") → c.Result = pb.Compare_EQUAL) ∧
        ((f3 = str "l" ∨ f3 = str "less") → c.Result = pb.Compare_LESS)) ∧
    parseCompare (str "foo ver g 3") =
      Go.ok { Key := some (str "foo"), Target := pb.Compare_VERSION,
              Result := pb.Compare_GREATER, Version := 3 } ∧
    parseCompare (str "bar value e hello") =
      Go.ok { Key := some (str "bar"), Target := pb.Compare_VALUE,
              Result := pb.Compare_EQUAL, Value := some (str "hello") } := by
  refine ⟨?_, by decide, by decide⟩
  intro line c h
  obtain ⟨f1, f2, f3, f4, a, hs, ha, hr⟩ := parseCompare_fields_of_ok h
  obtain ⟨hk, h1, h2, h3, h4⟩ := withTarget_ok ha
  obtain ⟨⟨r, rfl⟩, r1, r2, r3⟩ := withResult_ok hr
  exact ⟨f1, f2, f3, f4, hs, hk, h1, h2, h3, h4, r1, r2, r3⟩

/-- The general part of `parseCompare_result` at the line `k ver l -12`. -/
theorem parseCompare_result_witness :
    ∃ f1 f2 f3 f4, strings.Split (str "k ver l -12") sp = [f1, f2, f3, f4] ∧
      (some (str "k") : Bytes) = some f1 ∧
      strconv.ParseInt f4 10 64 = (-12, none) := by
  obtain ⟨f1, f2, f3, f4, hs, hk, h1, -⟩ := parseCompare_result.1 (str "k ver l -12")
    { Key := some (str "k"), Target := pb.Compare_VERSION, Result := pb.Compare_LESS,
      Version := -12 } (by decide)
  have hs2 : strings.Split (str "k ver l -12") sp = [str "k", str "ver", str "l", str "-12"] := by
    decide
  rw [hs2] at hs
  simp only [List.cons.injEq, and_true] at hs
  obtain ⟨rfl, rfl, rfl, rfl⟩ := hs
  exact ⟨_, _, _, _, hs2, rfl, by decide⟩

/-! ## Lemmas on `strings.Split` and on `parseRequestUnion` -/

theorem Split_ne_nil (s : GoString) (sep : Byte) : strings.Split s sep ≠ [] := by
  cases s with
  | nil => simp [strings.Split]
  | cons b bs =>
    unfold strings.Split
    split_ifs
    · simp
    · split <;> simp

theorem Split_length (s : GoString) (sep : Byte) :
    (strings.Split s sep).length = s.count sep + 1 := by
  induction s with
  | nil => simp [strings.Split]
  | cons b bs ih =>
    unfold strings.Split
    by_cases h : b = sep
    · subst h
      simp [ih]
    · have h2 : ¬ (b == sep) = true := by simpa using h
      rw [if_neg h, List.count_cons, if_neg h2]
      rcases hs : strings.Split bs sep with _ | ⟨p, ps⟩
      · exact absurd hs (Split_ne_nil bs sep)
      · rw [hs] at ih
        simpa using ih

theorem Split_length_lt_two (s : GoString) (sep : Byte) :
    (strings.Split s sep).length < 2 ↔ sep ∉ s := by
  rw [Split_length, ← List.count_eq_zero]
  omega

theorem parseRequestUnion_of_one {line f1 : GoString} (h : strings.Split line sp = [f1]) :
    parseRequestUnion line = Go.fail (fmt.Errorf msgCompare line) := by
  unfold parseRequestUnion
  simp [h]

theorem parseRequestUnion_eq {line f1 f2 : GoString} {rest : List GoString}
    (h : strings.Split line sp = f1 :: f2 :: rest) :
    parseRequestUnion line =
      if f1 = str "r" ∨ f1 = str "range" then
        match rest with
        | [f3] => Go.ok { RequestRange := some { Key := some f2, RangeEnd := some f3 } }
        | _ => Go.ok { RequestRange := some { Key := some f2 } }
      else if f1 = str "p" ∨ f1 = str "put" then
        match rest with
        | [] => Go.panic (.indexOutOfRange 2 2)
        | f3 :: _ => Go.ok { RequestPut := some { Key := some f2, Value := some f3 } }
      else if f1 = str "d" ∨ f1 = str "deleteRange" then
        match rest with
        | [_] => Go.panic .nilDereference
        | _ => Go.ok { RequestDeleteRange := some { Key := some f2 } }
      else Go.fail (fmt.Errorf msgRequest line) := by
  unfold parseRequestUnion
  simp only [h]
  rcases rest with _ | ⟨f3, _ | ⟨f4, t⟩⟩ <;>
    simp [index, toBytes]

theorem method_r_p {f : GoString} (h : f = str "r" ∨ f = str "range") :
    ¬ (f = str "p" ∨ f = str "put") := by
  rcases h with rfl | rfl <;> decide

theorem method_r_d {f : GoString} (h : f = str "r" ∨ f = str "range") :
    ¬ (f = str "d" ∨ f = str "deleteRange") := by
  rcases h with rfl | rfl <;> decide

theorem method_p_d {f : GoString} (h : f = str "p" ∨ f = str "put") :
    ¬ (f = str "d" ∨ f = str "deleteRange") := by
  rcases h with rfl | rfl <;> decide

/-- C3: evaluation at the failing input. A line of exactly two fields whose
first field is `p` or `put`, such as `p foo`, makes `parseRequestUnion` panic
with an index out of range at `parts[2]`; it does not return an error. -/
theorem parseRequestUnion_put_two_fields_panics :
    (∀ line f1 f2 : GoString, strings.Split line sp = [f1, f2] →
      (f1 = str "p" ∨ f1 = str "put") →
      parseRequestUnion line = Go.panic (.indexOutOfRange 2 2)) ∧
    parseRequestUnion (str "p foo") = Go.panic (.indexOutOfRange 2 2) := by
  refine ⟨?_, by decide⟩
  intro line f1 f2 hs hp
  rw [parseRequestUnion_eq hs, if_neg (fun hr => method_r_p hr hp), if_pos hp]

/-- C4: evaluation at the failing input. A line of exactly three fields whose
first field is `d` or `deleteRange`, such as `d foo bar`, makes
`parseRequestUnion` panic: the range end is assigned through the nil pointer
`ru.RequestRange`, not to the delete request. -/
theorem parseRequestUnion_delete_three_fields_panics :
    (∀ line f1 f2 f3 : GoString, strings.Split line sp = [f1, f2, f3] →
      (f1 = str "d" ∨ f1 = str "deleteRange") →
      parseRequestUnion line = Go.panic .nilDereference) ∧
    parseRequestUnion (str "d foo bar") = Go.panic .nilDereference := by
  refine ⟨?_, by decide⟩
  intro line f1 f2 f3 hs hd
  rw [parseRequestUnion_eq hs, if_neg (fun hr => method_r_d hr hd),
    if_neg (fun hp => method_p_d hp hd), if_pos hd]

/-- C5: a line of exactly two fields whose first field is `d` or `deleteRange`
gives a request union holding only a `DeleteRangeRequest`, with field 2 as key
and a nil range end; `d foo` gives the delete request of key `foo`. -/
theorem parseRequestUnion_delete_two_fields :
    (∀ line f1 f2 : GoString, strings.Split line sp = [f1, f2] →
      (f1 = str "d" ∨ f1 = str "deleteRange") →
      parseRequestUnion line =
        Go.ok { RequestRange := none, RequestPut := none,
                RequestDeleteRange := some { Key := some f2, RangeEnd := none } }) ∧
    parseRequestUnion (str "d foo") =
      Go.ok { RequestDeleteRange := some { Key := some (str "foo"), RangeEnd := none } } := by
  refine ⟨?_, by decide⟩
  intro line f1 f2 hs hd
  rw [parseRequestUnion_eq hs, if_neg (fun hr => method_r_d hr hd),
    if_neg (fun hp => method_p_d hp hd), if_pos hd]

/-- The general part of `parseRequestUnion_delete_two_fields` at the line
`deleteRange a`. -/
theorem parseRequestUnion_delete_two_fields_witness :
    parseRequestUnion (str "deleteRange a") =
      Go.ok { RequestDeleteRange := some { Key := some (str "a"), RangeEnd := none } } :=
  parseRequestUnion_delete_two_fields.1 (str "deleteRange a") (str "deleteRange") (str "a")
    (by decide) (Or.inr rfl)

/-- C6: a line whose first field is `r` or `range` gives a request union holding
only a `RangeRequest` with field 2 as key: with a nil range end when the line has
exactly two fields, with field 3 as range end when it has exactly three;
`r foo` and `r foo zzz` give the requests of the specification. -/
theorem parseRequestUnion_range :
    (∀ line f1 f2 : GoString, strings.Split line sp = [f1, f2] →
      (f1 = str "r" ∨ f1 = str "range") →
      parseRequestUnion line =
        Go.ok { RequestRange := some { Key := some f2, RangeEnd := none },
                RequestPut := none, RequestDeleteRange := none }) ∧
    (∀ line f1 f2 f3 : GoString, strings.Split line sp = [f1, f2, f3] →
      (f1 = str "r" ∨ f1 = str "range") →
      parseRequestUnion line =
        Go.ok { RequestRange := some { Key := some f2, RangeEnd := some f3 },
                RequestPut := none, RequestDeleteRange := none }) ∧
    parseRequestUnion (str "r foo") =
      Go.ok { RequestRange := some { Key := some (str "foo"), RangeEnd := none } } ∧
    parseRequestUnion (str "r foo zzz") =
      Go.ok { RequestRange := some { Key := some (str "foo"), RangeEnd := some (str "zzz") } } := by
  refine ⟨?_, ?_, by decide, by decide⟩
  · intro line f1 f2 hs hr
    rw [parseRequestUnion_eq hs, if_pos hr]
  · intro line f1 f2 f3 hs hr
    rw [parseRequestUnion_eq hs, if_pos hr]

/-- The general parts of `parseRequestUnion_range` at the lines `range a` and
`range a b`. -/
theorem parseRequestUnion_range_witness :
    parseRequestUnion (str "range a") =
      Go.ok { RequestRange := some { Key := some (str "a"), RangeEnd := none } } ∧
    parseRequestUnion (str "range a b") =
      Go.ok { RequestRange := some { Key := some (str "a"), RangeEnd := some (str "b") } } :=
  ⟨parseRequestUnion_range.1 (str "range a") (str "range") (str "a") (by decide) (Or.inr rfl),
   parseRequestUnion_range.2.1 (str "range a b") (str "range") (str "a") (str "b") (by decide)
     (Or.inr rfl)⟩

/-- C7: a line of exactly three fields whose first field is `p` or `put` gives a
request union holding only a `PutRequest`, with field 2 as key and field 3 as
value; `p foo bar` gives the put request of key `foo` and value `bar`. -/
theorem parseRequestUnion_put_three_fields :
    (∀ line f1 f2 f3 : GoString, strings.Split line sp = [f1, f2, f3] →
      (f1 = str "p" ∨ f1 = str "put") →
      parseRequestUnion line =
        Go.ok { RequestRange := none,
                RequestPut := some { Key := some f2, Value := some f3 },
                RequestDeleteRange := none }) ∧
    parseRequestUnion (str "p foo bar") =
      Go.ok { RequestPut := some { Key := some (str "foo"), Value := some (str "bar") } } := by
  refine ⟨?_, by decide⟩
  intro line f1 f2 f3 hs hp
  rw [parseRequestUnion_eq hs, if_neg (fun hr => method_r_p hr hp), if_pos hp]

/-- The general part of `parseRequestUnion_put_three_fields` at the line
`put a b`. -/
theorem parseRequestUnion_put_three_fields_witness :
    parseRequestUnion (str "put a b") =
      Go.ok { RequestPut := some { Key := some (str "a"), Value := some (str "b") } } :=
  parseRequestUnion_put_three_fields.1 (str "put a b") (str "put") (str "a") (str "b")
    (by decide) (Or.inr rfl)

/-- C8: a line with fewer than two fields, which is a line without a space,
makes `parseRequestUnion` return the error "invalid txn compare request: "
followed by the line; a line of two or more fields whose first field is none of
`r`, `range`, `p`, `put`, `d`, `deleteRange` makes it return the error
"invalid txn request: " followed by the line. No request is returned. -/
theorem parseRequestUnion_rejects (line : GoString) :
    ((strings.Split line sp).length < 2 ↔ sp ∉ line) ∧
    ((strings.Split line sp).length < 2 →
      parseRequestUnion line = Go.fail (fmt.Errorf msgCompare line)) ∧
    (∀ f1 rest, strings.Split line sp = f1 :: rest →
      f1 ∉ [str "r", str "range", str "p", str "put", str "d", str "deleteRange"] →
      parseRequestUnion line = Go.fail (fmt.Errorf msgCompare line) ∨
      parseRequestUnion line = Go.fail (fmt.Errorf msgRequest line)) := by
  refine ⟨Split_length_lt_two line sp, ?_, ?_⟩
  · intro hlen
    rcases hs : strings.Split line sp with _ | ⟨f1, _ | ⟨f2, rest⟩⟩
    · exact absurd hs (Split_ne_nil line sp)
    · exact parseRequestUnion_of_one hs
    · simp only [hs, List.length_cons] at hlen
      omega
  · intro f1 rest hs hf
    simp only [List.mem_cons, List.mem_singleton, List.not_mem_nil, or_false, not_or] at hf
    obtain ⟨h1, h2, h3, h4, h5, h6⟩ := hf
    rcases rest with _ | ⟨f2, rest⟩
    · exact Or.inl (parseRequestUnion_of_one hs)
    · right
      rw [parseRequestUnion_eq hs, if_neg (by tauto), if_neg (by tauto), if_neg (by tauto)]

/-- The rejection of `parseRequestUnion_rejects` at the line `x foo` (unknown
method) and at the line `range` (one field). -/
theorem parseRequestUnion_rejects_witness :
    (parseRequestUnion (str "x foo") = Go.fail (fmt.Errorf msgCompare (str "x foo")) ∨
      parseRequestUnion (str "x foo") = Go.fail (fmt.Errorf msgRequest (str "x foo"))) ∧
    parseRequestUnion (str "range") = Go.fail (fmt.Errorf msgCompare (str "range")) :=
  ⟨(parseRequestUnion_rejects (str "x foo")).2.2 (str "x") [str "foo"] (by decide) (by decide),
   (parseRequestUnion_rejects (str "range")).2.1 (by decide)⟩

/-! ## Lemmas on reading lines and on the step functions -/

theorem readUntil_of_not_mem {s : GoString} {d : Byte} (h : d ∉ s) :
    bufio.readUntil s d = ((s, some .EOF), []) := by
  induction s with
  | nil => rfl
  | cons b bs ih =>
    have hb : ¬ b = d := fun hbd => h (by simp [hbd])
    have hbs : d ∉ bs := fun hm => h (List.mem_cons_of_mem _ hm)
    simp [bufio.readUntil, hb, ih hbs]

theorem readUntil_append {l : GoString} {d : Byte} (h : d ∉ l) (rest : GoString) :
    bufio.readUntil (l ++ d :: rest) d = ((l ++ [d], none), rest) := by
  induction l with
  | nil => simp [bufio.readUntil]
  | cons b bs ih =>
    have hb : ¬ b = d := fun hbd => h (by simp [hbd])
    have hbs : d ∉ bs := fun hm => h (List.mem_cons_of_mem _ hm)
    simp [bufio.readUntil, hb, ih hbs]

theorem exists_first_of_mem {s : GoString} {d : Byte} (h : d ∈ s) :
    ∃ l rest, d ∉ l ∧ s = l ++ d :: rest := by
  induction s with
  | nil => simp at h
  | cons b bs ih =>
    by_cases hb : b = d
    · exact ⟨[], bs, by simp, by simp [hb]⟩
    · have hbs : d ∈ bs := by
        rcases List.mem_cons.mp h with h1 | h1
        · exact absurd h1.symm hb
        · exact h1
      obtain ⟨l, rest, hl, hs⟩ := ih hbs
      refine ⟨b :: l, rest, ?_, by simp [hs]⟩
      intro hm
      rcases List.mem_cons.mp hm with h1 | h1
      · exact hb h1.symm
      · exact hl h1

/-- Every input either has no line terminator, or starts with an empty line, or
starts with a line with content. -/
theorem input_cases (s : GoString) :
    nl ∉ s ∨ (∃ rest, s = nl :: rest) ∨
      (∃ l rest, l ≠ [] ∧ nl ∉ l ∧ s = l ++ nl :: rest) := by
  by_cases h : nl ∈ s
  · obtain ⟨l, rest, hl, hs⟩ := exists_first_of_mem h
    rcases l with _ | ⟨b, bs⟩
    · exact Or.inr (Or.inl ⟨rest, by simpa using hs⟩)
    · exact Or.inr (Or.inr ⟨b :: bs, rest, by simp, hl, hs⟩)
  · exact Or.inl h

section lineStep

variable {α : Type} (parse : GoString → Go α) (add : pb.TxnRequest → α → pb.TxnRequest)
  (same : stateFunc) (next : Option stateFunc) (txn : pb.TxnRequest)

theorem lineStep_eof {s : GoString} (h : nl ∉ s) :
    lineStep parse add same next txn ⟨s⟩ = Go.exit .ExitInvalidInput .EOF := by
  simp [lineStep, bufio.Reader.ReadString, readUntil_of_not_mem h, ExitWithError]

theorem lineStep_empty (rest : GoString) :
    lineStep parse add same next txn ⟨nl :: rest⟩ = Go.ok (next, txn, ⟨rest⟩) := by
  simp [lineStep, bufio.Reader.ReadString, bufio.readUntil]

theorem lineStep_line {l : GoString} (hne : l ≠ []) (h : nl ∉ l) (rest : GoString) :
    lineStep parse add same next txn ⟨l ++ nl :: rest⟩ =
      orExit (parse l) >>= fun a => Go.ok (some same, add txn a, ⟨rest⟩) := by
  have hlen : ¬ l.length = 0 := by simpa using hne
  simp [lineStep, bufio.Reader.ReadString, readUntil_append h, hlen, sliceTo]

end lineStep

/-! ## Lemmas on the loop of the collector -/

theorem call_compare (txn : pb.TxnRequest) (r : bufio.Reader) :
    stateFunc.compare.call txn r =
      lineStep parseCompare addCompare .compare (some .success) txn r := rfl

theorem call_success (txn : pb.TxnRequest) (r : bufio.Reader) :
    stateFunc.success.call txn r =
      lineStep parseRequestUnion addSuccess .success (some .failure) txn r := rfl

theorem call_failure (txn : pb.TxnRequest) (r : bufio.Reader) :
    stateFunc.failure.call txn r =
      lineStep parseRequestUnion addFailure .failure none txn r := rfl

theorem foldl_addCompare (cs : List pb.Compare) (t : pb.TxnRequest) :
    cs.foldl addCompare t = { t with Compare := t.Compare ++ cs } := by
  induction cs generalizing t with
  | nil => simp
  | cons c cs ih => simp [ih, addCompare]

theorem foldl_addSuccess (us : List pb.RequestUnion) (t : pb.TxnRequest) :
    us.foldl addSuccess t = { t with Success := t.Success ++ us } := by
  induction us generalizing t with
  | nil => simp
  | cons u us ih => simp [ih, addSuccess]

theorem foldl_addFailure (us : List pb.RequestUnion) (t : pb.TxnRequest) :
    us.foldl addFailure t = { t with Failure := t.Failure ++ us } := by
  induction us generalizing t with
  | nil => simp
  | cons u us ih => simp [ih, addFailure]

theorem collectLoop_none (fuel : Nat) (txn : pb.TxnRequest) (r : bufio.Reader) :
    collectLoop fuel none txn r = some (Go.ok (txn, r)) := by
  cases fuel <;> rfl

theorem collectLoop_succ (fuel : Nat) (st : stateFunc) (txn : pb.TxnRequest)
    (r : bufio.Reader) :
    collectLoop (fuel + 1) (some st) txn r =
      match st.call txn r with
      | .ok (next1, txn1, r1) => collectLoop fuel next1 txn1 r1
      | .fail e => some (.fail e)
      | .exit code e => some (.exit code e)
      | .panic p => some (.panic p) := rfl

section phase

variable {α : Type} {parse : GoString → Go α} {add : pb.TxnRequest → α → pb.TxnRequest}
  {st : stateFunc} {next : Option stateFunc}

/-- A state that reads lines accepted by its parser appends their parses and
stays, one iteration a line. -/
theorem collectLoop_lines
    (hcall : ∀ txn r, st.call txn r = lineStep parse add st next txn r)
    {ls : List GoString} {as : List α}
    (hparse : List.Forall₂ (fun l a => parse l = Go.ok a) ls as)
    (hline : ∀ l ∈ ls, l ≠ [] ∧ nl ∉ l) (n : Nat) (txn : pb.TxnRequest) (rest : GoString) :
    collectLoop (n + ls.length) (some st) txn ⟨writeLines ls ++ rest⟩ =
      collectLoop n (some st) (as.foldl add txn) ⟨rest⟩ := by
  induction hparse generalizing txn with
  | nil => simp [writeLines]
  | @cons l a ls as hl _ ih =>
    have h1 := hline l (by simp)
    have e : n + (l :: ls).length = (n + ls.length) + 1 := by simp; omega
    rw [e, collectLoop_succ, hcall]
    simp only [writeLines, List.append_assoc, List.cons_append]
    rw [lineStep_line parse add st next txn h1.1 h1.2, hl]
    simp only [orExit, Go.ok_bind, List.foldl_cons]
    exact ih (fun l hl => hline l (List.mem_cons_of_mem _ hl)) (add txn a)

/-- A state that reads lines accepted by its parser up to an empty line appends
their parses and hands over to the next state. -/
theorem collectLoop_phase
    (hcall : ∀ txn r, st.call txn r = lineStep parse add st next txn r)
    {ls : List GoString} {as : List α}
    (hparse : List.Forall₂ (fun l a => parse l = Go.ok a) ls as)
    (hline : ∀ l ∈ ls, l ≠ [] ∧ nl ∉ l) (n : Nat) (txn : pb.TxnRequest) (rest : GoString) :
    collectLoop (n + 1 + ls.length) (some st) txn ⟨writeLines ls ++ nl :: rest⟩ =
      collectLoop n next (as.foldl add txn) ⟨rest⟩ := by
  rw [collectLoop_lines hcall hparse hline, collectLoop_succ, hcall, lineStep_empty]

/-- A state that reads lines accepted by its parser and then a line with content
that its parser does not accept ends the process: by `ExitWithError` or by a
panic. -/
theorem collectLoop_reject
    (hcall : ∀ txn r, st.call txn r = lineStep parse add st next txn r)
    {ls : List GoString} {as : List α}
    (hparse : List.Forall₂ (fun l a => parse l = Go.ok a) ls as)
    (hline : ∀ l ∈ ls, l ≠ [] ∧ nl ∉ l) (n : Nat) (txn : pb.TxnRequest)
    {l : GoString} (hne : l ≠ []) (hl : nl ∉ l) (hbad : ∀ a, parse l ≠ Go.ok a)
    (rest : GoString) :
    (∃ c e, collectLoop (n + 1 + ls.length) (some st) txn ⟨writeLines ls ++ (l ++ nl :: rest)⟩
        = some (Go.exit c e)) ∨
    (∃ p, collectLoop (n + 1 + ls.length) (some st) txn ⟨writeLines ls ++ (l ++ nl :: rest)⟩
        = some (Go.panic p)) := by
  rw [collectLoop_lines hcall hparse hline, collectLoop_succ, hcall,
    lineStep_line parse add st next _ hne hl]
  rcases hp : parse l with a | e | ⟨c, e⟩ | p
  · exact absurd hp (hbad a)
  · exact Or.inl ⟨.ExitInvalidInput, e, by simp [orExit, ExitWithError]⟩
  · exact Or.inl ⟨c, e, by simp [orExit]⟩
  · exact Or.inr ⟨p, by simp [orExit]⟩

/-- A state from which the loop completes has read lines accepted by its parser
up to an empty line, and the loop completes from the next state. -/
theorem collectLoop_phase_inv
    (hcall : ∀ txn r, st.call txn r = lineStep parse add st next txn r)
    (fuel : Nat) (txn : pb.TxnRequest) (s : GoString) (res : pb.TxnRequest × bufio.Reader)
    (h : collectLoop fuel (some st) txn ⟨s⟩ = some (Go.ok res)) :
    ∃ (ls : List GoString) (as : List α) (rest : GoString) (n : Nat),
      s = writeLines ls ++ nl :: rest ∧ (∀ l ∈ ls, l ≠ [] ∧ nl ∉ l) ∧
      List.Forall₂ (fun l a => parse l = Go.ok a) ls as ∧
      collectLoop n next (as.foldl add txn) ⟨rest⟩ = some (Go.ok res) := by
  induction fuel generalizing txn s with
  | zero => simp [collectLoop] at h
  | succ fuel ih =>
    rw [collectLoop_succ, hcall] at h
    rcases input_cases s with hno | ⟨rest, rfl⟩ | ⟨l, rest, hne, hl, rfl⟩
    · rw [lineStep_eof parse add st next txn hno] at h
      simp at h
    · rw [lineStep_empty] at h
      exact ⟨[], [], rest, fuel, by simp [writeLines], by simp, List.Forall₂.nil, h⟩
    · rw [lineStep_line parse add st next txn hne hl] at h
      rcases hp : parse l with a | e | ⟨c, e⟩ | p
      · rw [hp] at h
        simp only [orExit, Go.ok_bind] at h
        obtain ⟨ls, as, rest1, n, hs, hlines, hpar, hloop⟩ := ih (add txn a) rest h
        refine ⟨l :: ls, a :: as, rest1, n, ?_, ?_, List.Forall₂.cons hp hpar, hloop⟩
        · simp [writeLines, hs]
        · intro x hx
          rcases List.mem_cons.mp hx with rfl | hx
          · exact ⟨hne, hl⟩
          · exact hlines x hx
      · rw [hp] at h
        simp [orExit, ExitWithError] at h
      · rw [hp] at h
        simp [orExit] at h
      · rw [hp] at h
        simp [orExit] at h

end phase

theorem writeLines_append (a b : List GoString) :
    writeLines (a ++ b) = writeLines a ++ writeLines b := by
  induction a with
  | nil => rfl
  | cons l ls ih => simp [writeLines, ih]

theorem writeLines_length (ls : List GoString) : ls.length ≤ (writeLines ls).length := by
  induction ls with
  | nil => simp
  | cons l ls ih => simp [writeLines]; omega

section total

variable {α : Type} {parse : GoString → Go α} {add : pb.TxnRequest → α → pb.TxnRequest}
  {same : stateFunc} {next : Option stateFunc}

theorem lineStep_cases (txn : pb.TxnRequest) (r : bufio.Reader) :
    (∃ n t r1, lineStep parse add same next txn r = Go.ok (n, t, r1) ∧
      r1.unread.length < r.unread.length) ∨
    (∃ c e, lineStep parse add same next txn r = Go.exit c e) ∨
    (∃ p, lineStep parse add same next txn r = Go.panic p) := by
  rcases r with ⟨s⟩
  rcases input_cases s with hno | ⟨rest, rfl⟩ | ⟨l, rest, hne, hl, rfl⟩
  · exact Or.inr (Or.inl ⟨_, _, lineStep_eof parse add same next txn hno⟩)
  · exact Or.inl ⟨_, _, _, lineStep_empty parse add same next txn rest, by simp⟩
  · rw [lineStep_line parse add same next txn hne hl]
    rcases hp : parse l with a | e | ⟨c, e⟩ | p
    · exact Or.inl ⟨some same, add txn a, ⟨rest⟩, by simp [orExit], by simp; omega⟩
    · exact Or.inr (Or.inl ⟨.ExitInvalidInput, e, by simp [orExit, ExitWithError]⟩)
    · exact Or.inr (Or.inl ⟨c, e, by simp [orExit]⟩)
    · exact Or.inr (Or.inr ⟨p, by simp [orExit]⟩)

end total

theorem call_cases (st : stateFunc) (txn : pb.TxnRequest) (r : bufio.Reader) :
    (∃ n t r1, st.call txn r = Go.ok (n, t, r1) ∧ r1.unread.length < r.unread.length) ∨
    (∃ c e, st.call txn r = Go.exit c e) ∨
    (∃ p, st.call txn r = Go.panic p) := by
  cases st
  · rw [call_compare]; exact lineStep_cases txn r
  · rw [call_success]; exact lineStep_cases txn r
  · rw [call_failure]; exact lineStep_cases txn r

/-- With more iterations than unread bytes the loop ends: with a request or
with an abort. -/
theorem collectLoop_enough (fuel : Nat) (st : Option stateFunc) (txn : pb.TxnRequest)
    (r : bufio.Reader) (h : r.unread.length < fuel) :
    ∃ o, collectLoop fuel st txn r = some o ∧ (o.completed = true ∨ o.aborted = true) := by
  induction fuel generalizing st txn r with
  | zero => omega
  | succ fuel ih =>
    rcases st with _ | st
    · exact ⟨_, collectLoop_none _ _ _, Or.inl rfl⟩
    · rw [collectLoop_succ]
      rcases call_cases st txn r with ⟨n, t, r1, hc, hlt⟩ | ⟨c, e, hc⟩ | ⟨p, hc⟩
      · rw [hc]
        exact ih n t r1 (by omega)
      · rw [hc]
        exact ⟨_, rfl, Or.inr rfl⟩
      · rw [hc]
        exact ⟨_, rfl, Or.inr rfl⟩

/-- More iterations do not change an outcome. -/
theorem collectLoop_mono {fuel : Nat} {st : Option stateFunc} {txn : pb.TxnRequest}
    {r : bufio.Reader} {o : Go (pb.TxnRequest × bufio.Reader)}
    (h : collectLoop fuel st txn r = some o) (k : Nat) :
    collectLoop (fuel + k) st txn r = some o := by
  induction fuel generalizing st txn r with
  | zero =>
    rcases st with _ | st
    · rw [collectLoop_none] at h ⊢
      exact h
    · simp [collectLoop] at h
  | succ fuel ih =>
    rcases st with _ | st
    · rw [collectLoop_none] at h ⊢
      exact h
    · have e : fuel + 1 + k = (fuel + k) + 1 := by omega
      rw [e, collectLoop_succ]
      rw [collectLoop_succ] at h
      rcases hc : st.call txn r with ⟨n, t, r1⟩ | e | ⟨c, e⟩ | p
      · rw [hc] at h
        exact ih h
      · rw [hc] at h; exact h
      · rw [hc] at h; exact h
      · rw [hc] at h; exact h

/-! ## The collector on a whole input -/

theorem parseCompare_ne_nil {l : GoString} {c : pb.Compare} (h : parseCompare l = Go.ok c) :
    l ≠ [] := by
  rintro rfl
  have h0 : parseCompare [] = Go.fail (fmt.Errorf msgCompare []) := by decide
  rw [h0] at h
  cases h

theorem parseRequestUnion_ne_nil {l : GoString} {u : pb.RequestUnion}
    (h : parseRequestUnion l = Go.ok u) : l ≠ [] := by
  rintro rfl
  have h0 : parseRequestUnion [] = Go.fail (fmt.Errorf msgCompare []) := by decide
  rw [h0] at h
  cases h

theorem writeLines_three (cs ss fs : List GoString) (rest : GoString) :
    writeLines (cs ++ [[]] ++ ss ++ [[]] ++ fs ++ [[]]) ++ rest =
      writeLines cs ++ nl :: (writeLines ss ++ nl :: (writeLines fs ++ nl :: rest)) := by
  simp [writeLines_append, writeLines]

theorem forall2_ne_nil {α : Type} {parse : GoString → Go α}
    (hnil : ∀ l a, parse l = Go.ok a → l ≠ []) {ls : List GoString} {as : List α}
    (h : List.Forall₂ (fun l a => parse l = Go.ok a) ls as) : ∀ l ∈ ls, l ≠ [] := by
  induction h with
  | nil => simp
  | @cons l a ls as hl _ ih =>
    intro x hx
    rcases List.mem_cons.mp hx with rfl | hx
    · exact hnil _ _ hl
    · exact ih x hx

/-- The loop on an input of accepted comparison lines, an empty line, accepted
request lines, an empty line, accepted request lines, an empty line. -/
theorem collectLoop_of_lines {cs ss fs : List GoString} {cmps : List pb.Compare}
    {us vs : List pb.RequestUnion}
    (hc : List.Forall₂ (fun l c => parseCompare l = Go.ok c) cs cmps)
    (hs : List.Forall₂ (fun l u => parseRequestUnion l = Go.ok u) ss us)
    (hf : List.Forall₂ (fun l u => parseRequestUnion l = Go.ok u) fs vs)
    (hnl : ∀ l ∈ cs ++ ss ++ fs, nl ∉ l) (rest : GoString) (n : Nat) :
    collectLoop (n + 1 + fs.length + 1 + ss.length + 1 + cs.length) (some .compare) {}
        ⟨writeLines (cs ++ [[]] ++ ss ++ [[]] ++ fs ++ [[]]) ++ rest⟩ =
      some (Go.ok ({ Compare := cmps, Success := us, Failure := vs }, ⟨rest⟩)) := by
  have h1 : ∀ l ∈ cs, l ≠ [] ∧ nl ∉ l := fun l hl =>
    ⟨forall2_ne_nil (fun _ _ => parseCompare_ne_nil) hc l hl, hnl l (by simp [hl])⟩
  have h2 : ∀ l ∈ ss, l ≠ [] ∧ nl ∉ l := fun l hl =>
    ⟨forall2_ne_nil (fun _ _ => parseRequestUnion_ne_nil) hs l hl, hnl l (by simp [hl])⟩
  have h3 : ∀ l ∈ fs, l ≠ [] ∧ nl ∉ l := fun l hl =>
    ⟨forall2_ne_nil (fun _ _ => parseRequestUnion_ne_nil) hf l hl, hnl l (by simp [hl])⟩
  rw [writeLines_three, collectLoop_phase call_compare hc h1,
    collectLoop_phase call_success hs h2, collectLoop_phase call_failure hf h3,
    collectLoop_none, foldl_addCompare, foldl_addSuccess, foldl_addFailure]
  simp

theorem writeLines_three_length (cs ss fs : List GoString) (rest : GoString) :
    cs.length + ss.length + fs.length + 3 ≤
      (writeLines (cs ++ [[]] ++ ss ++ [[]] ++ fs ++ [[]]) ++ rest).length := by
  have h := writeLines_length (cs ++ [[]] ++ ss ++ [[]] ++ fs ++ [[]])
  simp only [List.length_append, List.length_cons, List.length_nil] at h ⊢
  omega

/-- The collector on such an input completes with the parses. -/
theorem txnCollect_of_lines {cs ss fs : List GoString} {cmps : List pb.Compare}
    {us vs : List pb.RequestUnion}
    (hc : List.Forall₂ (fun l c => parseCompare l = Go.ok c) cs cmps)
    (hs : List.Forall₂ (fun l u => parseRequestUnion l = Go.ok u) ss us)
    (hf : List.Forall₂ (fun l u => parseRequestUnion l = Go.ok u) fs vs)
    (hnl : ∀ l ∈ cs ++ ss ++ fs, nl ∉ l) (rest : GoString) :
    txnCollect (writeLines (cs ++ [[]] ++ ss ++ [[]] ++ fs ++ [[]]) ++ rest) =
      some (Go.ok ({ Compare := cmps, Success := us, Failure := vs }, ⟨rest⟩)) := by
  have hlen := writeLines_three_length cs ss fs rest
  obtain ⟨n, hn⟩ : ∃ n, (writeLines (cs ++ [[]] ++ ss ++ [[]] ++ fs ++ [[]]) ++ rest).length + 1
      = n + 1 + fs.length + 1 + ss.length + 1 + cs.length :=
    ⟨(writeLines (cs ++ [[]] ++ ss ++ [[]] ++ fs ++ [[]]) ++ rest).length
      - (cs.length + ss.length + fs.length + 2), by omega⟩
  unfold txnCollect
  rw [hn]
  exact collectLoop_of_lines hc hs hf hnl rest n

/-- A completed collector has read accepted comparison lines, an empty line,
accepted request lines, an empty line, accepted request lines, an empty line,
and returns their parses and the unread rest. -/
theorem collectLoop_ok_inv {fuel : Nat} {stdin : GoString} {txn : pb.TxnRequest}
    {r : bufio.Reader}
    (h : collectLoop fuel (some .compare) {} ⟨stdin⟩ = some (Go.ok (txn, r))) :
    ∃ cs ss fs, stdin = writeLines (cs ++ [[]] ++ ss ++ [[]] ++ fs ++ [[]]) ++ r.unread ∧
      (∀ l ∈ cs ++ ss ++ fs, l ≠ [] ∧ nl ∉ l) ∧
      List.Forall₂ (fun l c => parseCompare l = Go.ok c) cs txn.Compare ∧
      List.Forall₂ (fun l u => parseRequestUnion l = Go.ok u) ss txn.Success ∧
      List.Forall₂ (fun l u => parseRequestUnion l = Go.ok u) fs txn.Failure := by
  obtain ⟨cs, cmps, r1, n1, e1, l1, p1, h1⟩ := collectLoop_phase_inv call_compare _ _ _ _ h
  obtain ⟨ss, us, r2, n2, e2, l2, p2, h2⟩ := collectLoop_phase_inv call_success _ _ _ _ h1
  obtain ⟨fs, vs, r3, n3, e3, l3, p3, h3⟩ := collectLoop_phase_inv call_failure _ _ _ _ h2
  rw [collectLoop_none, foldl_addCompare, foldl_addSuccess, foldl_addFailure] at h3
  simp only [Option.some.injEq, Go.ok.injEq, Prod.mk.injEq] at h3
  obtain ⟨rfl, rfl⟩ := h3
  refine ⟨cs, ss, fs, ?_, ?_, by simpa using p1, by simpa using p2, by simpa using p3⟩
  · rw [writeLines_three, e1, e2, e3]
  · intro l hl
    simp only [List.mem_append] at hl
    rcases hl with (hl | hl) | hl
    · exact l1 l hl
    · exact l2 l hl
    · exact l3 l hl

theorem Split_append_sep {l : GoString} {d : Byte} (h : d ∉ l) (rest : GoString) :
    strings.Split (l ++ d :: rest) d = l :: strings.Split rest d := by
  induction l with
  | nil => simp [strings.Split]
  | cons b bs ih =>
    have hb : ¬ b = d := fun hbd => h (by simp [hbd])
    have hbs : d ∉ bs := fun hm => h (List.mem_cons_of_mem _ hm)
    simp [strings.Split, hb, ih hbs]

theorem Split_writeLines {ls : List GoString} (h : ∀ l ∈ ls, nl ∉ l) (rest : GoString) :
    strings.Split (writeLines ls ++ rest) nl = ls ++ strings.Split rest nl := by
  induction ls with
  | nil => simp [writeLines]
  | cons l ls ih =>
    have hl : nl ∉ l := h l (by simp)
    simp only [writeLines, List.append_assoc, List.cons_append]
    rw [Split_append_sep hl, ih (fun x hx => h x (List.mem_cons_of_mem _ hx))]

theorem emptyLines_writeLines {ls : List GoString} (h : ∀ l ∈ ls, nl ∉ l) (rest : GoString) :
    emptyLines (writeLines ls ++ rest) = ls.count [] + emptyLines rest := by
  unfold emptyLines
  rw [Split_writeLines h, List.dropLast_append_of_ne_nil _ (Split_ne_nil rest nl),
    List.count_append]

theorem emptyLines_three {cs ss fs : List GoString} (h : ∀ l ∈ cs ++ ss ++ fs, nl ∉ l)
    (rest : GoString) :
    3 ≤ emptyLines (writeLines (cs ++ [[]] ++ ss ++ [[]] ++ fs ++ [[]]) ++ rest) := by
  have hl : ∀ l ∈ cs ++ [[]] ++ ss ++ [[]] ++ fs ++ [[]], nl ∉ l := by
    intro l hl
    simp only [List.mem_append, List.mem_singleton] at hl
    rcases hl with ((((hl | rfl) | hl) | rfl) | hl) | rfl
    · exact h l (by simp [hl])
    · simp
    · exact h l (by simp [hl])
    · simp
    · exact h l (by simp [hl])
    · simp
  rw [emptyLines_writeLines hl]
  simp only [List.count_append, List.count_singleton_self]
  omega

/-! ## The claims on the collector -/

/-- C9: on the input made of lines `cs` accepted by `parseCompare`, an empty
line, lines `ss` accepted by `parseRequestUnion`, an empty line, lines `fs`
accepted by `parseRequestUnion` and an empty line, each line ended by the
terminator (which no line contains), the collector completes with the request
whose comparisons are the parses of `cs` in order, as many as the lines of `cs`,
whose success list is the parses of `ss` and whose failure list is the parses of
`fs`, and has read the whole input. The input of the end-to-end scenario yields
the request of the specification. -/
theorem txnCollect_collects :
    (∀ (cs ss fs : List GoString) (cmps : List pb.Compare) (us vs : List pb.RequestUnion),
      (∀ l ∈ cs ++ ss ++ fs, nl ∉ l) →
      List.Forall₂ (fun l c => parseCompare l = Go.ok c) cs cmps →
      List.Forall₂ (fun l u => parseRequestUnion l = Go.ok u) ss us →
      List.Forall₂ (fun l u => parseRequestUnion l = Go.ok u) fs vs →
      txnCollect (writeLines (cs ++ [[]] ++ ss ++ [[]] ++ fs ++ [[]])) =
          some (Go.ok ({ Compare := cmps, Success := us, Failure := vs }, ⟨[]⟩)) ∧
        cmps.length = cs.length) ∧
    txnCollect (writeLines [str "k1 ver g 1", str "", str "p k1 v1", str "", str "d k1", str ""]) =
      some (Go.ok
        ({ Compare := [{ Key := some (str "k1"), Target := pb.Compare_VERSION,
                         Result := pb.Compare_GREATER, Version := 1 }],
           Success := [{ RequestPut := some { Key := some (str "k1"), Value := some (str "v1") } }],
           Failure := [{ RequestDeleteRange := some { Key := some (str "k1"), RangeEnd := none } }] },
         ⟨[]⟩)) := by
  refine ⟨?_, by decide⟩
  intro cs ss fs cmps us vs hnl hc hs hf
  refine ⟨?_, hc.length_eq.symm⟩
  have h := txnCollect_of_lines hc hs hf hnl []
  rwa [List.append_nil] at h

/-- The general part of `txnCollect_collects` at two comparison lines, one
success line and no failure line. -/
theorem txnCollect_collects_witness :
    txnCollect (writeLines ([str "a m e 7", str "b val l x"] ++ [[]] ++ [str "r a z"] ++ [[]]
        ++ [] ++ [[]])) =
      some (Go.ok
        ({ Compare := [{ Key := some (str "a"), Target := pb.Compare_MOD,
                         Result := pb.Compare_EQUAL, ModRevision := 7 },
                       { Key := some (str "b"), Target := pb.Compare_VALUE,
                         Result := pb.Compare_LESS, Value := some (str "x") }],
           Success := [{ RequestRange := some { Key := some (str "a"),
                                                RangeEnd := some (str "z") } }],
           Failure := [] }, ⟨[]⟩)) :=
  (txnCollect_collects.1 [str "a m e 7", str "b val l x"] [str "r a z"] [] _ _ _
    (by decide)
    (List.Forall₂.cons (by decide) (List.Forall₂.cons (by decide) List.Forall₂.nil))
    (List.Forall₂.cons (by decide) List.Forall₂.nil)
    List.Forall₂.nil).1

theorem aborted_of_exit_or_panic {fuel : Nat} {st : Option stateFunc} {txn : pb.TxnRequest}
    {r : bufio.Reader}
    (h : (∃ c e, collectLoop fuel st txn r = some (Go.exit c e)) ∨
      (∃ p, collectLoop fuel st txn r = some (Go.panic p))) :
    ∃ o, collectLoop fuel st txn r = some o ∧ o.aborted = true := by
  rcases h with ⟨c, e, h⟩ | ⟨p, h⟩
  · exact ⟨_, h, rfl⟩
  · exact ⟨_, h, rfl⟩

/-- A line with content that `parseCompare` does not accept, read in the state
COMPARE after accepted lines, aborts the collector. -/
theorem txnCollect_reject_compare {cs : List GoString} {cmps : List pb.Compare}
    (hc : List.Forall₂ (fun l c => parseCompare l = Go.ok c) cs cmps)
    (hnl : ∀ l ∈ cs, nl ∉ l)
    {l : GoString} (hne : l ≠ []) (hl : nl ∉ l) (hbad : ∀ c, parseCompare l ≠ Go.ok c)
    (rest : GoString) :
    ∃ o, txnCollect (writeLines (cs ++ [l]) ++ rest) = some o ∧ o.aborted = true := by
  have h1 : ∀ l ∈ cs, l ≠ [] ∧ nl ∉ l := fun l hl =>
    ⟨forall2_ne_nil (fun _ _ => parseCompare_ne_nil) hc l hl, hnl l hl⟩
  have e : writeLines (cs ++ [l]) ++ rest = writeLines cs ++ (l ++ nl :: rest) := by
    simp [writeLines_append, writeLines]
  have hlen := writeLines_length cs
  obtain ⟨n, hn⟩ : ∃ n, (writeLines cs ++ (l ++ nl :: rest)).length + 1 = n + 1 + cs.length :=
    ⟨(writeLines cs ++ (l ++ nl :: rest)).length - cs.length, by
      simp only [List.length_append, List.length_cons]; omega⟩
  unfold txnCollect
  rw [e, hn]
  exact aborted_of_exit_or_panic (collectLoop_reject call_compare hc h1 n _ hne hl hbad rest)

/-- A line with content that `parseRequestUnion` does not accept, read in the
state SUCCESS after accepted lines, aborts the collector. -/
theorem txnCollect_reject_success {cs ss : List GoString} {cmps : List pb.Compare}
    {us : List pb.RequestUnion}
    (hc : List.Forall₂ (fun l c => parseCompare l = Go.ok c) cs cmps)
    (hs : List.Forall₂ (fun l u => parseRequestUnion l = Go.ok u) ss us)
    (hnl : ∀ l ∈ cs ++ ss, nl ∉ l)
    {l : GoString} (hne : l ≠ []) (hl : nl ∉ l) (hbad : ∀ u, parseRequestUnion l ≠ Go.ok u)
    (rest : GoString) :
    ∃ o, txnCollect (writeLines (cs ++ [[]] ++ ss ++ [l]) ++ rest) = some o ∧
      o.aborted = true := by
  have h1 : ∀ l ∈ cs, l ≠ [] ∧ nl ∉ l := fun l hl =>
    ⟨forall2_ne_nil (fun _ _ => parseCompare_ne_nil) hc l hl, hnl l (by simp [hl])⟩
  have h2 : ∀ l ∈ ss, l ≠ [] ∧ nl ∉ l := fun l hl =>
    ⟨forall2_ne_nil (fun _ _ => parseRequestUnion_ne_nil) hs l hl, hnl l (by simp [hl])⟩
  have e : writeLines (cs ++ [[]] ++ ss ++ [l]) ++ rest =
      writeLines cs ++ nl :: (writeLines ss ++ (l ++ nl :: rest)) := by
    simp [writeLines_append, writeLines]
  have hlen1 := writeLines_length cs
  have hlen2 := writeLines_length ss
  obtain ⟨n, hn⟩ : ∃ n, (writeLines cs ++ nl :: (writeLines ss ++ (l ++ nl :: rest))).length + 1
      = n + 1 + ss.length + 1 + cs.length :=
    ⟨(writeLines cs ++ nl :: (writeLines ss ++ (l ++ nl :: rest))).length
      - (cs.length + ss.length + 1), by
      simp only [List.length_append, List.length_cons]; omega⟩
  unfold txnCollect
  rw [e, hn, collectLoop_phase call_compare hc h1]
  exact aborted_of_exit_or_panic (collectLoop_reject call_success hs h2 n _ hne hl hbad rest)

/-- A line with content that `parseRequestUnion` does not accept, read in the
state FAILURE after accepted lines, aborts the collector. -/
theorem txnCollect_reject_failure {cs ss fs : List GoString} {cmps : List pb.Compare}
    {us vs : List pb.RequestUnion}
    (hc : List.Forall₂ (fun l c => parseCompare l = Go.ok c) cs cmps)
    (hs : List.Forall₂ (fun l u => parseRequestUnion l = Go.ok u) ss us)
    (hf : List.Forall₂ (fun l u => parseRequestUnion l = Go.ok u) fs vs)
    (hnl : ∀ l ∈ cs ++ ss ++ fs, nl ∉ l)
    {l : GoString} (hne : l ≠ []) (hl : nl ∉ l) (hbad : ∀ u, parseRequestUnion l ≠ Go.ok u)
    (rest : GoString) :
    ∃ o, txnCollect (writeLines (cs ++ [[]] ++ ss ++ [[]] ++ fs ++ [l]) ++ rest) = some o ∧
      o.aborted = true := by
  have h1 : ∀ l ∈ cs, l ≠ [] ∧ nl ∉ l := fun l hl =>
    ⟨forall2_ne_nil (fun _ _ => parseCompare_ne_nil) hc l hl, hnl l (by simp [hl])⟩
  have h2 : ∀ l ∈ ss, l ≠ [] ∧ nl ∉ l := fun l hl =>
    ⟨forall2_ne_nil (fun _ _ => parseRequestUnion_ne_nil) hs l hl, hnl l (by simp [hl])⟩
  have h3 : ∀ l ∈ fs, l ≠ [] ∧ nl ∉ l := fun l hl =>
    ⟨forall2_ne_nil (fun _ _ => parseRequestUnion_ne_nil) hf l hl, hnl l (by simp [hl])⟩
  have e : writeLines (cs ++ [[]] ++ ss ++ [[]] ++ fs ++ [l]) ++ rest =
      writeLines cs ++ nl :: (writeLines ss ++ nl :: (writeLines fs ++ (l ++ nl :: rest))) := by
    simp [writeLines_append, writeLines]
  have hlen1 := writeLines_length cs
  have hlen2 := writeLines_length ss
  have hlen3 := writeLines_length fs
  obtain ⟨n, hn⟩ : ∃ n,
      (writeLines cs ++ nl :: (writeLines ss ++ nl :: (writeLines fs ++ (l ++ nl :: rest)))).length
        + 1 = n + 1 + fs.length + 1 + ss.length + 1 + cs.length :=
    ⟨(writeLines cs ++ nl :: (writeLines ss ++ nl :: (writeLines fs ++ (l ++ nl :: rest)))).length
      - (cs.length + ss.length + fs.length + 2), by
      simp only [List.length_append, List.length_cons]; omega⟩
  unfold txnCollect
  rw [e, hn, collectLoop_phase call_compare hc h1, collectLoop_phase call_success hs h2]
  exact aborted_of_exit_or_panic (collectLoop_reject call_failure hf h3 n _ hne hl hbad rest)

/-- C10: the collector always ends, with a request or with an abort
(`ExitWithError` or a panic). It completes with a request exactly when the input
is accepted comparison lines, a line of just the terminator, accepted request
lines, a second such line, accepted request lines and a third such line, followed
by what is left unread; the request then holds the parses. Hence it aborts
(b) when the input has fewer than three empty lines, a last line without
terminator not counting as a line, and (a) when a line `l` with content, read in
COMPARE, in SUCCESS or in FAILURE after accepted lines, is not accepted by the
parser of that state. -/
theorem txnCollect_completes_only_if (stdin : GoString) :
    (∃ o, txnCollect stdin = some o ∧ (o.completed = true ∨ o.aborted = true)) ∧
    (∀ txn r, txnCollect stdin = some (Go.ok (txn, r)) ↔
      ∃ cs ss fs, stdin = writeLines (cs ++ [[]] ++ ss ++ [[]] ++ fs ++ [[]]) ++ r.unread ∧
        (∀ l ∈ cs ++ ss ++ fs, l ≠ [] ∧ nl ∉ l) ∧
        List.Forall₂ (fun l c => parseCompare l = Go.ok c) cs txn.Compare ∧
        List.Forall₂ (fun l u => parseRequestUnion l = Go.ok u) ss txn.Success ∧
        List.Forall₂ (fun l u => parseRequestUnion l = Go.ok u) fs txn.Failure) ∧
    (emptyLines stdin < 3 → ∃ o, txnCollect stdin = some o ∧ o.aborted = true) ∧
    (∀ (cs : List GoString) (cmps : List pb.Compare) (l rest : GoString),
      stdin = writeLines (cs ++ [l]) ++ rest →
      (∀ x ∈ cs, nl ∉ x) → List.Forall₂ (fun l c => parseCompare l = Go.ok c) cs cmps →
      l ≠ [] → nl ∉ l → (∀ c, parseCompare l ≠ Go.ok c) →
      ∃ o, txnCollect stdin = some o ∧ o.aborted = true) ∧
    (∀ (cs ss : List GoString) (cmps : List pb.Compare) (us : List pb.RequestUnion)
        (l rest : GoString),
      stdin = writeLines (cs ++ [[]] ++ ss ++ [l]) ++ rest →
      (∀ x ∈ cs ++ ss, nl ∉ x) → List.Forall₂ (fun l c => parseCompare l = Go.ok c) cs cmps →
      List.Forall₂ (fun l u => parseRequestUnion l = Go.ok u) ss us →
      l ≠ [] → nl ∉ l → (∀ u, parseRequestUnion l ≠ Go.ok u) →
      ∃ o, txnCollect stdin = some o ∧ o.aborted = true) ∧
    (∀ (cs ss fs : List GoString) (cmps : List pb.Compare) (us vs : List pb.RequestUnion)
        (l rest : GoString),
      stdin = writeLines (cs ++ [[]] ++ ss ++ [[]] ++ fs ++ [l]) ++ rest →
      (∀ x ∈ cs ++ ss ++ fs, nl ∉ x) →
      List.Forall₂ (fun l c => parseCompare l = Go.ok c) cs cmps →
      List.Forall₂ (fun l u => parseRequestUnion l = Go.ok u) ss us →
      List.Forall₂ (fun l u => parseRequestUnion l = Go.ok u) fs vs →
      l ≠ [] → nl ∉ l → (∀ u, parseRequestUnion l ≠ Go.ok u) →
      ∃ o, txnCollect stdin = some o ∧ o.aborted = true) := by
  have hend := collectLoop_enough (stdin.length + 1) (some .compare) {} ⟨stdin⟩ (by simp)
  have hiff : ∀ txn r, txnCollect stdin = some (Go.ok (txn, r)) ↔
      ∃ cs ss fs, stdin = writeLines (cs ++ [[]] ++ ss ++ [[]] ++ fs ++ [[]]) ++ r.unread ∧
        (∀ l ∈ cs ++ ss ++ fs, l ≠ [] ∧ nl ∉ l) ∧
        List.Forall₂ (fun l c => parseCompare l = Go.ok c) cs txn.Compare ∧
        List.Forall₂ (fun l u => parseRequestUnion l = Go.ok u) ss txn.Success ∧
        List.Forall₂ (fun l u => parseRequestUnion l = Go.ok u) fs txn.Failure := by
    intro txn r
    constructor
    · intro h
      exact collectLoop_ok_inv h
    · rintro ⟨cs, ss, fs, rfl, hl, hc, hs, hf⟩
      exact txnCollect_of_lines hc hs hf (fun l hm => (hl l hm).2) r.unread
  refine ⟨hend, hiff, ?_, ?_, ?_, ?_⟩
  · intro hlt
    obtain ⟨o, ho, hoc | hoa⟩ := hend
    · rcases o with ⟨txn, r⟩ | e | ⟨c, e⟩ | p <;> simp [Go.completed] at hoc
      obtain ⟨cs, ss, fs, rfl, hl, -⟩ := (hiff txn r).mp ho
      have := emptyLines_three (fun l hm => (hl l hm).2) r.unread
      omega
    · exact ⟨o, ho, hoa⟩
  · rintro cs cmps l rest rfl hnl hc hne hl hbad
    exact txnCollect_reject_compare hc hnl hne hl hbad rest
  · rintro cs ss cmps us l rest rfl hnl hc hs hne hl hbad
    exact txnCollect_reject_success hc hs hnl hne hl hbad rest
  · rintro cs ss fs cmps us vs l rest rfl hnl hc hs hf hne hl hbad
    exact txnCollect_reject_failure hc hs hf hnl hne hl hbad rest

/-- The aborts of `txnCollect_completes_only_if` at concrete inputs: an input
whose last line `d k1` has no terminator, and an input whose line `p k1`, read in
SUCCESS, is not accepted. -/
theorem txnCollect_completes_only_if_witness :
    (∃ o, txnCollect (str "k1 ver g 1\n\np k1 v1\n\nd k1") = some o ∧ o.aborted = true) ∧
    (∃ o, txnCollect (writeLines ([str "k1 ver g 1"] ++ [[]] ++ [] ++ [str "p k1"]) ++ str "\n")
      = some o ∧ o.aborted = true) :=
  ⟨(txnCollect_completes_only_if (str "k1 ver g 1\n\np k1 v1\n\nd k1")).2.2.1 (by decide),
   (txnCollect_completes_only_if _).2.2.2.2.1 [str "k1 ver g 1"] []
      [{ Key := some (str "k1"), Target := pb.Compare_VERSION, Result := pb.Compare_GREATER,
         Version := 1 }] [] (str "p k1") (str "\n") rfl (by decide)
      (List.Forall₂.cons (by decide) List.Forall₂.nil) List.Forall₂.nil (by decide) (by decide)
      (by
        intro u
        have h : parseRequestUnion (str "p k1") = Go.panic (.indexOutOfRange 2 2) := by decide
        rw [h]
        simp)⟩

/-! ## Further lemmas and claims on the two parsers -/

theorem parseCompare_ok_or_fail (line : GoString) :
    (∃ c, parseCompare line = Go.ok c) ∨
      parseCompare line = Go.fail (fmt.Errorf msgCompare line) := by
  by_cases hlen : (strings.Split line sp).length = 4
  · obtain ⟨f1, f2, f3, f4, hs⟩ : ∃ f1 f2 f3 f4, strings.Split line sp = [f1, f2, f3, f4] := by
      rcases hsp : strings.Split line sp with _ | ⟨f1, _ | ⟨f2, _ | ⟨f3, _ | ⟨f4, _ | ⟨f5, t⟩⟩⟩⟩⟩ <;>
        simp [hsp] at hlen
      exact ⟨f1, f2, f3, f4, rfl⟩
    rw [parseCompare_eq hs]
    rcases withTarget_ok_or_fail line f1 f2 f4 with ⟨a, ha⟩ | hf
    · rcases withResult_ok_or_fail line f3 a with ⟨c, hc⟩ | hf
      · exact Or.inl ⟨c, Go.bind_eq_ok.mpr ⟨a, ha, hc⟩⟩
      · exact Or.inr (by simp [ha, hf])
    · exact Or.inr (by simp [hf])
  · exact Or.inr (parseCompare_of_length hlen)

theorem withTarget_ok_slots {line f1 f2 f4 : GoString} {a : pb.Compare}
    (h : withTarget line f1 f2 f4 = Go.ok a) :
    (a.Target = pb.Compare_VERSION → a.Value = none ∧ a.CreateRevision = 0 ∧ a.ModRevision = 0) ∧
    (a.Target = pb.Compare_CREATE → a.Value = none ∧ a.Version = 0 ∧ a.ModRevision = 0) ∧
    (a.Target = pb.Compare_MOD → a.Value = none ∧ a.Version = 0 ∧ a.CreateRevision = 0) ∧
    (a.Target = pb.Compare_VALUE → a.Version = 0 ∧ a.CreateRevision = 0 ∧ a.ModRevision = 0) := by
  unfold withTarget at h
  split_ifs at h with h1 h2 h3 h4
  · obtain ⟨v, -, rfl⟩ := intPayload_eq_ok.mp h
    simp
  · obtain ⟨v, -, rfl⟩ := intPayload_eq_ok.mp h
    simp
  · obtain ⟨v, -, rfl⟩ := intPayload_eq_ok.mp h
    simp
  · cases h
    simp

/-- C12: when `parseCompare` succeeds only the payload of the target is set: for
the targets VERSION, CREATE and MOD the value is the nil slice and the two other
integer fields are 0; for the target VALUE the three integer fields are 0. -/
theorem parseCompare_payload_slots (line : GoString) (c : pb.Compare)
    (h : parseCompare line = Go.ok c) :
    (c.Target = pb.Compare_VERSION → c.Value = none ∧ c.CreateRevision = 0 ∧ c.ModRevision = 0) ∧
    (c.Target = pb.Compare_CREATE → c.Value = none ∧ c.Version = 0 ∧ c.ModRevision = 0) ∧
    (c.Target = pb.Compare_MOD → c.Value = none ∧ c.Version = 0 ∧ c.CreateRevision = 0) ∧
    (c.Target = pb.Compare_VALUE → c.Version = 0 ∧ c.CreateRevision = 0 ∧ c.ModRevision = 0) := by
  obtain ⟨f1, f2, f3, f4, a, -, ha, hr⟩ := parseCompare_fields_of_ok h
  obtain ⟨⟨r, rfl⟩, -⟩ := withResult_ok hr
  have hs := withTarget_ok_slots ha
  exact hs

/-- The statement of `parseCompare_payload_slots` for the target MOD on the line
`k m g 5`, whose comparison has the mod revision 5, a nil value, version 0 and
create revision 0. -/
theorem parseCompare_payload_slots_witness :
    parseCompare (str "k m g 5") =
      Go.ok { Key := some (str "k"), Target := pb.Compare_MOD, Result := pb.Compare_GREATER,
              ModRevision := 5 } ∧
    (pb.Compare_MOD = pb.Compare_MOD →
      (none : Bytes) = none ∧ (0 : Int) = 0 ∧ (0 : Int) = 0) :=
  ⟨by decide,
   (parseCompare_payload_slots (str "k m g 5")
      { Key := some (str "k"), Target := pb.Compare_MOD, Result := pb.Compare_GREATER,
        ModRevision := 5 } (by decide)).2.2.1⟩

theorem parseRequestUnion_fields_of_ok {line : GoString} {u : pb.RequestUnion}
    (h : parseRequestUnion line = Go.ok u) :
    ∃ f1 f2 rest, strings.Split line sp = f1 :: f2 :: rest := by
  rcases hs : strings.Split line sp with _ | ⟨f1, _ | ⟨f2, rest⟩⟩
  · exact absurd hs (Split_ne_nil line sp)
  · rw [parseRequestUnion_of_one hs] at h
    cases h
  · exact ⟨f1, f2, rest, rfl⟩

/-- C13: when `parseRequestUnion` succeeds exactly one of the three pointers of
the request union is set: the range request for `r` and `range`, the put request
for `p` and `put`, the delete request for `d` and `deleteRange`; the two others
are nil, and the key of the request that is set is field 2. -/
theorem parseRequestUnion_tagged (line : GoString) (u : pb.RequestUnion)
    (h : parseRequestUnion line = Go.ok u) :
    ∃ f1 f2 rest, strings.Split line sp = f1 :: f2 :: rest ∧
      (((f1 = str "r" ∨ f1 = str "range") ∧
          (∃ q, u.RequestRange = some q ∧ q.Key = some f2) ∧
          u.RequestPut = none ∧ u.RequestDeleteRange = none) ∨
       ((f1 = str "p" ∨ f1 = str "put") ∧
          (∃ q, u.RequestPut = some q ∧ q.Key = some f2) ∧
          u.RequestRange = none ∧ u.RequestDeleteRange = none) ∨
       ((f1 = str "d" ∨ f1 = str "deleteRange") ∧
          (∃ q, u.RequestDeleteRange = some q ∧ q.Key = some f2) ∧
          u.RequestRange = none ∧ u.RequestPut = none)) := by
  obtain ⟨f1, f2, rest, hs⟩ := parseRequestUnion_fields_of_ok h
  refine ⟨f1, f2, rest, hs, ?_⟩
  rw [parseRequestUnion_eq hs] at h
  split_ifs at h with h1 h2 h3
  · left
    refine ⟨h1, ?_⟩
    split at h <;> cases h <;> exact ⟨⟨_, rfl, rfl⟩, rfl, rfl⟩
  · right; left
    refine ⟨h2, ?_⟩
    split at h <;> cases h
    exact ⟨⟨_, rfl, rfl⟩, rfl, rfl⟩
  · right; right
    refine ⟨h3, ?_⟩
    split at h <;> cases h
    exact ⟨⟨_, rfl, rfl⟩, rfl, rfl⟩

/-- The statement of `parseRequestUnion_tagged` on the line `put a b`. -/
theorem parseRequestUnion_tagged_witness :
    ∃ f1 f2 rest, strings.Split (str "put a b") sp = f1 :: f2 :: rest ∧
      (((f1 = str "r" ∨ f1 = str "range") ∧
          (∃ q, (none : Option pb.RangeRequest) = some q ∧ q.Key = some f2) ∧
          (some { Key := some (str "a"), Value := some (str "b") } : Option pb.PutRequest) = none ∧
          (none : Option pb.DeleteRangeRequest) = none) ∨
       ((f1 = str "p" ∨ f1 = str "put") ∧
          (∃ q, (some { Key := some (str "a"), Value := some (str "b") } : Option pb.PutRequest)
              = some q ∧ q.Key = some f2) ∧
          (none : Option pb.RangeRequest) = none ∧ (none : Option pb.DeleteRangeRequest) = none) ∨
       ((f1 = str "d" ∨ f1 = str "deleteRange") ∧
          (∃ q, (none : Option pb.DeleteRangeRequest) = some q ∧ q.Key = some f2) ∧
          (none : Option pb.RangeRequest) = none ∧
          (some { Key := some (str "a"), Value := some (str "b") } : Option pb.PutRequest) = none)) :=
  parseRequestUnion_tagged (str "put a b")
    { RequestPut := some { Key := some (str "a"), Value := some (str "b") } } (by decide)

/-- C17: an error returned by `parseCompare` or by `parseRequestUnion` is a text
that ends with the line as it was passed: "invalid txn compare request: " or
"invalid txn request: " followed by the line. -/
theorem parse_error_carries_line (line : GoString) (e : GoError) :
    (parseCompare line = Go.fail e →
      e = GoError.text (msgCompare ++ line) ∧ ∃ m, e = GoError.text m ∧ line <:+ m) ∧
    (parseRequestUnion line = Go.fail e →
      (e = GoError.text (msgCompare ++ line) ∨ e = GoError.text (msgRequest ++ line)) ∧
      ∃ m, e = GoError.text m ∧ line <:+ m) := by
  constructor
  · intro h
    rcases parseCompare_ok_or_fail line with ⟨c, hc⟩ | hf
    · rw [hc] at h
      cases h
    · rw [hf] at h
      cases h
      exact ⟨rfl, _, rfl, List.suffix_append _ _⟩
  · intro h
    rcases hs : strings.Split line sp with _ | ⟨f1, _ | ⟨f2, rest⟩⟩
    · exact absurd hs (Split_ne_nil line sp)
    · rw [parseRequestUnion_of_one hs] at h
      cases h
      exact ⟨Or.inl rfl, _, rfl, List.suffix_append _ _⟩
    · rw [parseRequestUnion_eq hs] at h
      split_ifs at h with h1 h2 h3
      · split at h <;> cases h
      · split at h <;> cases h
      · split at h <;> cases h
      · cases h
        exact ⟨Or.inr rfl, _, rfl, List.suffix_append _ _⟩

/-- The statement of `parse_error_carries_line` on the lines `foo bad g 3`, an
error of `parseCompare`, and `x foo`, an error of `parseRequestUnion`. -/
theorem parse_error_carries_line_witness :
    (∃ m, fmt.Errorf msgCompare (str "foo bad g 3") = GoError.text m ∧ str "foo bad g 3" <:+ m) ∧
    (∃ m, fmt.Errorf msgRequest (str "x foo") = GoError.text m ∧ str "x foo" <:+ m) :=
  ⟨((parse_error_carries_line (str "foo bad g 3") _).1 (by decide)).2,
   ((parse_error_carries_line (str "x foo") _).2 (by decide)).2⟩

/-- C18: a line of four or more fields is not rejected by `parseRequestUnion`.
For `r`, `range`, `d` and `deleteRange` it gives the request of the line cut down
to its first two fields: key field 2 and a nil range end, although a third field
is there. For `p` and `put` it gives the put request of key field 2 and value
field 3; the later fields are dropped. -/
theorem parseRequestUnion_extra_fields (line f1 f2 f3 f4 : GoString) (rest : List GoString)
    (h : strings.Split line sp = f1 :: f2 :: f3 :: f4 :: rest) :
    ((f1 = str "r" ∨ f1 = str "range") →
      parseRequestUnion line =
        Go.ok { RequestRange := some { Key := some f2, RangeEnd := none },
                RequestPut := none, RequestDeleteRange := none } ∧
      ∀ cut, strings.Split cut sp = [f1, f2] → parseRequestUnion line = parseRequestUnion cut) ∧
    ((f1 = str "d" ∨ f1 = str "deleteRange") →
      parseRequestUnion line =
        Go.ok { RequestRange := none, RequestPut := none,
                RequestDeleteRange := some { Key := some f2, RangeEnd := none } } ∧
      ∀ cut, strings.Split cut sp = [f1, f2] → parseRequestUnion line = parseRequestUnion cut) ∧
    ((f1 = str "p" ∨ f1 = str "put") →
      parseRequestUnion line =
        Go.ok { RequestRange := none,
                RequestPut := some { Key := some f2, Value := some f3 },
                RequestDeleteRange := none }) := by
  refine ⟨fun hr => ⟨?_, fun cut hc => ?_⟩, fun hd => ⟨?_, fun cut hc => ?_⟩, fun hp => ?_⟩
  · rw [parseRequestUnion_eq h, if_pos hr]
  · rw [parseRequestUnion_eq h, parseRequestUnion_eq hc, if_pos hr, if_pos hr]
  · rw [parseRequestUnion_eq h, if_neg (fun hr => method_r_d hr hd),
      if_neg (fun hp => method_p_d hp hd), if_pos hd]
  · rw [parseRequestUnion_eq h, parseRequestUnion_eq hc, if_neg (fun hr => method_r_d hr hd),
      if_neg (fun hp => method_p_d hp hd), if_pos hd, if_neg (fun hr => method_r_d hr hd),
      if_neg (fun hp => method_p_d hp hd), if_pos hd]
  · rw [parseRequestUnion_eq h, if_neg (fun hr => method_r_p hr hp), if_pos hp]

/-- The statement of `parseRequestUnion_extra_fields` on the lines `r a b c`,
`d a b c d` and `p a b c`. -/
theorem parseRequestUnion_extra_fields_witness :
    (parseRequestUnion (str "r a b c") =
        Go.ok { RequestRange := some { Key := some (str "a"), RangeEnd := none } } ∧
      parseRequestUnion (str "r a b c") = parseRequestUnion (str "r a")) ∧
    (parseRequestUnion (str "d a b c d") =
        Go.ok { RequestDeleteRange := some { Key := some (str "a"), RangeEnd := none } } ∧
      parseRequestUnion (str "d a b c d") = parseRequestUnion (str "d a")) ∧
    parseRequestUnion (str "p a b c") =
      Go.ok { RequestPut := some { Key := some (str "a"), Value := some (str "b") } } :=
  ⟨⟨((parseRequestUnion_extra_fields (str "r a b c") (str "r") (str "a") (str "b") (str "c") []
        (by decide)).1 (Or.inl rfl)).1,
    ((parseRequestUnion_extra_fields (str "r a b c") (str "r") (str "a") (str "b") (str "c") []
        (by decide)).1 (Or.inl rfl)).2 (str "r a") (by decide)⟩,
   ⟨((parseRequestUnion_extra_fields (str "d a b c d") (str "d") (str "a") (str "b") (str "c")
        [str "d"] (by decide)).2.1 (Or.inl rfl)).1,
    ((parseRequestUnion_extra_fields (str "d a b c d") (str "d") (str "a") (str "b") (str "c")
        [str "d"] (by decide)).2.1 (Or.inl rfl)).2 (str "d a") (by decide)⟩,
   (parseRequestUnion_extra_fields (str "p a b c") (str "p") (str "a") (str "b") (str "c") []
        (by decide)).2.2 (Or.inl rfl)⟩

/-! ## Single steps of the collector -/

theorem ReadString_empty (rest : GoString) :
    (⟨nl :: rest⟩ : bufio.Reader).ReadString nl = (([nl], none), ⟨rest⟩) := by
  simp [bufio.Reader.ReadString, bufio.readUntil]

theorem ReadString_line {l : GoString} (h : nl ∉ l) (rest : GoString) :
    (⟨l ++ nl :: rest⟩ : bufio.Reader).ReadString nl = ((l ++ [nl], none), ⟨rest⟩) := by
  simp [bufio.Reader.ReadString, readUntil_append h]

section stepInv

variable {α : Type} {parse : GoString → Go α} {add : pb.TxnRequest → α → pb.TxnRequest}
  {same : stateFunc} {next : Option stateFunc}

/-- A step that returns has read an empty line and hands over with the request
as it was, or has read a line with content that its parser accepts and stays
with the parse appended. -/
theorem lineStep_ok_inv {txn : pb.TxnRequest} {r : bufio.Reader} {n : Option stateFunc}
    {t : pb.TxnRequest} {r1 : bufio.Reader}
    (h : lineStep parse add same next txn r = Go.ok (n, t, r1)) :
    (r.unread = nl :: r1.unread ∧ (r.ReadString nl).1.1 = [nl] ∧ n = next ∧ t = txn) ∨
    (∃ l a, l ≠ [] ∧ nl ∉ l ∧ r.unread = l ++ nl :: r1.unread ∧
      (r.ReadString nl).1.1 = l ++ [nl] ∧ parse l = Go.ok a ∧ n = some same ∧ t = add txn a) := by
  rcases r with ⟨s⟩
  rcases input_cases s with hno | ⟨rest, rfl⟩ | ⟨l, rest, hne, hl, rfl⟩
  · rw [lineStep_eof parse add same next txn hno] at h
    cases h
  · rw [lineStep_empty] at h
    cases h
    exact Or.inl ⟨rfl, by rw [ReadString_empty], rfl, rfl⟩
  · rw [lineStep_line parse add same next txn hne hl] at h
    rcases hp : parse l with a | e | ⟨c, e⟩ | p
    · rw [hp] at h
      simp only [orExit, Go.ok_bind] at h
      cases h
      exact Or.inr ⟨l, a, hne, hl, rfl, by rw [ReadString_line hl], hp, rfl, rfl⟩
    · rw [hp] at h
      simp [orExit, ExitWithError] at h
    · rw [hp] at h
      simp [orExit] at h
    · rw [hp] at h
      simp [orExit] at h

/-- A step on a line with content that its parser does not accept ends the
process. -/
theorem lineStep_reject (txn : pb.TxnRequest) {l : GoString} (hne : l ≠ []) (hl : nl ∉ l)
    (hbad : ∀ a, parse l ≠ Go.ok a) (rest : GoString) :
    (lineStep parse add same next txn ⟨l ++ nl :: rest⟩).aborted = true := by
  rw [lineStep_line parse add same next txn hne hl]
  rcases hp : parse l with a | e | ⟨c, e⟩ | p
  · exact absurd hp (hbad a)
  · simp [orExit, ExitWithError, Go.aborted]
  · simp [orExit, Go.aborted]
  · simp [orExit, Go.aborted]

end stepInv

theorem append_nl_ne {l : GoString} (hne : l ≠ []) : l ++ [nl] ≠ [nl] := by
  intro h
  have hlen := congrArg List.length h
  simp at hlen
  exact hne hlen

theorem stateRank_injective {a b : Option stateFunc} (h : stateRank a = stateRank b) : a = b := by
  rcases a with _ | (_ | _ | _) <;> rcases b with _ | (_ | _ | _) <;> simp [stateRank] at h <;> rfl

/-- The state returned by a step is the state itself or the one after it. -/
theorem call_rank {st : stateFunc} {txn : pb.TxnRequest} {r : bufio.Reader}
    {n : Option stateFunc} {t : pb.TxnRequest} {r1 : bufio.Reader}
    (h : st.call txn r = Go.ok (n, t, r1)) :
    stateRank n = stateRank (some st) ∨ stateRank n = stateRank (some st) + 1 := by
  cases st
  · rw [call_compare] at h
    rcases lineStep_ok_inv h with ⟨-, -, rfl, -⟩ | ⟨l, a, -, -, -, -, -, rfl, -⟩ <;> simp [stateRank]
  · rw [call_success] at h
    rcases lineStep_ok_inv h with ⟨-, -, rfl, -⟩ | ⟨l, a, -, -, -, -, -, rfl, -⟩ <;> simp [stateRank]
  · rw [call_failure] at h
    rcases lineStep_ok_inv h with ⟨-, -, rfl, -⟩ | ⟨l, a, -, -, -, -, -, rfl, -⟩ <;> simp [stateRank]

theorem collectTrace_ge (fuel : Nat) (st : Option stateFunc) (txn : pb.TxnRequest)
    (r : bufio.Reader) : ∀ x ∈ collectTrace fuel st txn r, stateRank st ≤ stateRank x := by
  induction fuel generalizing st txn r with
  | zero =>
    rcases st with _ | st <;> simp [collectTrace]
  | succ fuel ih =>
    rcases st with _ | st
    · simp [collectTrace]
    · intro x hx
      simp only [collectTrace, List.mem_cons] at hx
      rcases hx with rfl | hx
      · exact Nat.le_refl _
      · rcases hc : st.call txn r with ⟨n, t, r1⟩ | e | ⟨c, e⟩ | p
        · rw [hc] at hx
          have h1 := ih n t r1 x hx
          rcases call_rank hc with h2 | h2 <;> omega
        · simp [hc] at hx
        · simp [hc] at hx
        · simp [hc] at hx

theorem collectTrace_sorted (fuel : Nat) (st : Option stateFunc) (txn : pb.TxnRequest)
    (r : bufio.Reader) :
    (collectTrace fuel st txn r).Pairwise (fun a b => stateRank a ≤ stateRank b) := by
  induction fuel generalizing st txn r with
  | zero =>
    rcases st with _ | st <;> simp [collectTrace]
  | succ fuel ih =>
    rcases st with _ | st
    · simp [collectTrace]
    · simp only [collectTrace, List.pairwise_cons]
      rcases hc : st.call txn r with ⟨n, t, r1⟩ | e | ⟨c, e⟩ | p
      · refine ⟨fun x hx => ?_, ih n t r1⟩
        have h1 := collectTrace_ge fuel n t r1 x hx
        rcases call_rank hc with h2 | h2 <;> omega
      · simp
      · simp
      · simp

/-- In a list of states in the order of the collector, a state that occurs at
two places occurs at every place in between. -/
theorem sorted_no_reentry {tr : List (Option stateFunc)}
    (hs : tr.Pairwise (fun a b => stateRank a ≤ stateRank b))
    {i j k : Nat} {s : Option stateFunc} (hij : i < j) (hjk : j < k)
    (hi : tr[i]? = some s) (hk : tr[k]? = some s) : tr[j]? = some s := by
  obtain ⟨hil, hi1⟩ := List.getElem?_eq_some.mp hi
  obtain ⟨hkl, hk1⟩ := List.getElem?_eq_some.mp hk
  have hjl : j < tr.length := by omega
  have h1 := List.pairwise_iff_getElem.mp hs i j hil hjl hij
  have h2 := List.pairwise_iff_getElem.mp hs j k hjl hkl hjk
  rw [hi1] at h1
  rw [hk1] at h2
  rw [List.getElem?_eq_getElem hjl]
  exact congrArg some (stateRank_injective (by omega))

/-- C11: the transitions are linear. A step that returns gives back its own
state or the next one in the order COMPARE, SUCCESS, FAILURE, TERMINAL (the nil
`stateFunc`), and the next one exactly when the line it has read is just the
terminator. Hence the states that the loop passes through are in that order, and
a state does not occur again once another state has occurred after it. An empty
first line in COMPARE leaves the comparisons empty and leads to SUCCESS; an
empty line in SUCCESS leaves the request as it is and leads to FAILURE. -/
theorem collector_linear :
    (∀ txn r next txn1 r1, compareState txn r = Go.ok (next, txn1, r1) →
      (next = some .compare ∨ next = some .success) ∧
      (next = some .success ↔ (r.ReadString nl).1.1 = [nl])) ∧
    (∀ txn r next txn1 r1, successState txn r = Go.ok (next, txn1, r1) →
      (next = some .success ∨ next = some .failure) ∧
      (next = some .failure ↔ (r.ReadString nl).1.1 = [nl])) ∧
    (∀ txn r next txn1 r1, failureState txn r = Go.ok (next, txn1, r1) →
      (next = some .failure ∨ next = none) ∧
      (next = none ↔ (r.ReadString nl).1.1 = [nl])) ∧
    (∀ fuel st txn r,
      (collectTrace fuel st txn r).Pairwise (fun a b => stateRank a ≤ stateRank b)) ∧
    (∀ fuel st txn r (i j k : Nat) (s : Option stateFunc), i < j → j < k →
      (collectTrace fuel st txn r)[i]? = some s → (collectTrace fuel st txn r)[k]? = some s →
      (collectTrace fuel st txn r)[j]? = some s) ∧
    (∀ rest, compareState {} ⟨nl :: rest⟩ = Go.ok (some .success, {}, ⟨rest⟩)) ∧
    (∀ txn rest, successState txn ⟨nl :: rest⟩ = Go.ok (some .failure, txn, ⟨rest⟩)) := by
  refine ⟨?_, ?_, ?_, collectTrace_sorted, ?_, ?_, ?_⟩
  · intro txn r next txn1 r1 h
    have h1 : lineStep parseCompare addCompare .compare (some .success) txn r
        = Go.ok (next, txn1, r1) := h
    rcases lineStep_ok_inv h1 with ⟨-, hr, rfl, -⟩ | ⟨l, a, hne, -, -, hr, -, rfl, -⟩
    · exact ⟨Or.inr rfl, by simp [hr]⟩
    · refine ⟨Or.inl rfl, ?_⟩
      rw [hr]
      constructor
      · intro h2
        cases h2
      · intro h2
        exact absurd h2 (append_nl_ne hne)
  · intro txn r next txn1 r1 h
    have h1 : lineStep parseRequestUnion addSuccess .success (some .failure) txn r
        = Go.ok (next, txn1, r1) := h
    rcases lineStep_ok_inv h1 with ⟨-, hr, rfl, -⟩ | ⟨l, a, hne, -, -, hr, -, rfl, -⟩
    · exact ⟨Or.inr rfl, by simp [hr]⟩
    · refine ⟨Or.inl rfl, ?_⟩
      rw [hr]
      constructor
      · intro h2
        cases h2
      · intro h2
        exact absurd h2 (append_nl_ne hne)
  · intro txn r next txn1 r1 h
    have h1 : lineStep parseRequestUnion addFailure .failure none txn r
        = Go.ok (next, txn1, r1) := h
    rcases lineStep_ok_inv h1 with ⟨-, hr, rfl, -⟩ | ⟨l, a, hne, -, -, hr, -, rfl, -⟩
    · exact ⟨Or.inr rfl, by simp [hr]⟩
    · refine ⟨Or.inl rfl, ?_⟩
      rw [hr]
      constructor
      · intro h2
        cases h2
      · intro h2
        exact absurd h2 (append_nl_ne hne)
  · intro fuel st txn r i j k s hij hjk hi hk
    exact sorted_no_reentry (collectTrace_sorted fuel st txn r) hij hjk hi hk
  · intro rest
    exact lineStep_empty parseCompare addCompare .compare (some .success) {} rest
  · intro txn rest
    exact lineStep_empty parseRequestUnion addSuccess .success (some .failure) txn rest

/-- The statements of `collector_linear` on concrete inputs: the step of
COMPARE on the line `k1 ver g 1` stays in COMPARE, and the states passed on the
input of the end-to-end scenario are COMPARE twice, SUCCESS twice, FAILURE twice,
TERMINAL. -/
theorem collector_linear_witness :
    ((some stateFunc.compare = some stateFunc.compare ∨
        some stateFunc.compare = some stateFunc.success) ∧
      (some stateFunc.compare = some stateFunc.success ↔
        ((⟨str "k1 ver g 1\n\n"⟩ : bufio.Reader).ReadString nl).1.1 = [nl])) ∧
    collectTrace 10 (some .compare) {} ⟨str "k1 ver g 1\n\np k1 v1\n\nd k1\n\n"⟩ =
      [some .compare, some .compare, some .success, some .success, some .failure,
       some .failure, none] ∧
    (collectTrace 10 (some .compare) {} ⟨str "k1 ver g 1\n\np k1 v1\n\nd k1\n\n"⟩).Pairwise
      (fun a b => stateRank a ≤ stateRank b) :=
  ⟨collector_linear.1 {} ⟨str "k1 ver g 1\n\n"⟩ (some .compare)
      { Compare := [{ Key := some (str "k1"), Target := pb.Compare_VERSION,
                      Result := pb.Compare_GREATER, Version := 1 }] }
      ⟨str "\n"⟩ (by decide),
   by decide,
   collector_linear.2.2.2.1 10 (some .compare) {} ⟨str "k1 ver g 1\n\np k1 v1\n\nd k1\n\n"⟩⟩

section frame

variable {α : Type} (parse : GoString → Go α) (add : pb.TxnRequest → α → pb.TxnRequest)
  (same : stateFunc) (next : Option stateFunc) (txn : pb.TxnRequest)

theorem lineStepMem_eof {s : GoString} (h : nl ∉ s) :
    lineStepMem parse add same next ⟨s⟩ txn = (Go.exit .ExitInvalidInput .EOF, txn) := by
  simp [lineStepMem, bufio.Reader.ReadString, readUntil_of_not_mem h, ExitWithError, Mem.call]

theorem lineStepMem_empty (rest : GoString) :
    lineStepMem parse add same next ⟨nl :: rest⟩ txn = (Go.ok (next, ⟨rest⟩), txn) := by
  simp [lineStepMem, bufio.Reader.ReadString, bufio.readUntil, pure]

theorem lineStepMem_line {l : GoString} (hne : l ≠ []) (h : nl ∉ l) (rest : GoString) :
    lineStepMem parse add same next ⟨l ++ nl :: rest⟩ txn =
      match orExit (parse l) with
      | .ok a => (Go.ok (some same, ⟨rest⟩), add txn a)
      | .fail e => (Go.fail e, txn)
      | .exit c e => (Go.exit c e, txn)
      | .panic p => (Go.panic p, txn) := by
  have hlen : ¬ l.length = 0 := by simpa using hne
  rcases hp : orExit (parse l) with a | e | ⟨c, e⟩ | p <;>
    simp [lineStepMem, bufio.Reader.ReadString, readUntil_append h, hlen, sliceTo, hp,
      bind, Mem.bind, Mem.call, Mem.load, Mem.store, pure]

/-- The step with the request threaded through agrees with the step function:
the same outcome, and on a return the request in memory is the one returned. -/
theorem lineStepMem_agrees (r : bufio.Reader) :
    lineStep parse add same next txn r = returned (lineStepMem parse add same next r txn) := by
  rcases r with ⟨s⟩
  rcases input_cases s with hno | ⟨rest, rfl⟩ | ⟨l, rest, hne, hl, rfl⟩
  · rw [lineStep_eof parse add same next txn hno, lineStepMem_eof parse add same next txn hno]
    rfl
  · rw [lineStep_empty, lineStepMem_empty]
    rfl
  · rw [lineStep_line parse add same next txn hne hl,
      lineStepMem_line parse add same next txn hne hl]
    rcases hp : orExit (parse l) with a | e | ⟨c, e⟩ | p <;> rfl

/-- The request in memory after a step, however the step ends: the request as it
was, or with one parse appended. -/
theorem lineStepMem_request (r : bufio.Reader) :
    (lineStepMem parse add same next r txn).2 = txn ∨
      ∃ a, (lineStepMem parse add same next r txn).2 = add txn a := by
  rcases r with ⟨s⟩
  rcases input_cases s with hno | ⟨rest, rfl⟩ | ⟨l, rest, hne, hl, rfl⟩
  · rw [lineStepMem_eof parse add same next txn hno]
    exact Or.inl rfl
  · rw [lineStepMem_empty]
    exact Or.inl rfl
  · rw [lineStepMem_line parse add same next txn hne hl]
    rcases hp : orExit (parse l) with a | e | ⟨c, e⟩ | p
    · exact Or.inr ⟨a, rfl⟩
    · exact Or.inl rfl
    · exact Or.inl rfl
    · exact Or.inl rfl

/-- A step on a line with content that its parser does not accept ends the
process with the request in memory as it was at the call. -/
theorem lineStepMem_reject {l : GoString} (hne : l ≠ []) (hl : nl ∉ l)
    (hbad : ∀ a, parse l ≠ Go.ok a) (rest : GoString) :
    (lineStepMem parse add same next ⟨l ++ nl :: rest⟩ txn).1.aborted = true ∧
    (lineStepMem parse add same next ⟨l ++ nl :: rest⟩ txn).2 = txn := by
  rw [lineStepMem_line parse add same next txn hne hl]
  rcases hp : parse l with a | e | ⟨c, e⟩ | p
  · exact absurd hp (hbad a)
  · exact ⟨rfl, rfl⟩
  · exact ⟨rfl, rfl⟩
  · exact ⟨rfl, rfl⟩

end frame

theorem compareStateMem_eq (r : bufio.Reader) :
    compareStateMem r = lineStepMem parseCompare addCompare .compare (some .success) r := rfl

theorem successStateMem_eq (r : bufio.Reader) :
    successStateMem r = lineStepMem parseRequestUnion addSuccess .success (some .failure) r := rfl

theorem failureStateMem_eq (r : bufio.Reader) :
    failureStateMem r = lineStepMem parseRequestUnion addFailure .failure none r := rfl

/-- C16: a step touches only the list of its state, and only by appending. The
step functions agree with their versions that thread the request in memory
through every statement, aborts included. On a line with content that parses,
the step of COMPARE returns the request with the parsed comparison appended to
the comparisons and the two other lists as they were; the step of SUCCESS
appends the parsed request to the success list only; the step of FAILURE to the
failure list only. A step on an empty line returns the request as it was. A step
on a line that does not parse ends the process, and the request in memory is
then as it was at the call: the append comes after the test of the parse error.
On every input, however the step ends, the request in memory is the request
before the step with at most one element appended to the list of the state. -/
theorem step_frame :
    (∀ txn r,
      compareState txn r = returned (compareStateMem r txn) ∧
      successState txn r = returned (successStateMem r txn) ∧
      failureState txn r = returned (failureStateMem r txn)) ∧
    (∀ txn l rest c, l ≠ [] → nl ∉ l → parseCompare l = Go.ok c →
      compareState txn ⟨l ++ nl :: rest⟩ =
        Go.ok (some .compare,
          { Compare := txn.Compare ++ [c], Success := txn.Success, Failure := txn.Failure },
          ⟨rest⟩)) ∧
    (∀ txn l rest u, l ≠ [] → nl ∉ l → parseRequestUnion l = Go.ok u →
      successState txn ⟨l ++ nl :: rest⟩ =
        Go.ok (some .success,
          { Compare := txn.Compare, Success := txn.Success ++ [u], Failure := txn.Failure },
          ⟨rest⟩)) ∧
    (∀ txn l rest u, l ≠ [] → nl ∉ l → parseRequestUnion l = Go.ok u →
      failureState txn ⟨l ++ nl :: rest⟩ =
        Go.ok (some .failure,
          { Compare := txn.Compare, Success := txn.Success, Failure := txn.Failure ++ [u] },
          ⟨rest⟩)) ∧
    (∀ txn rest,
      compareState txn ⟨nl :: rest⟩ = Go.ok (some .success, txn, ⟨rest⟩) ∧
      successState txn ⟨nl :: rest⟩ = Go.ok (some .failure, txn, ⟨rest⟩) ∧
      failureState txn ⟨nl :: rest⟩ = Go.ok (none, txn, ⟨rest⟩)) ∧
    (∀ txn l rest, l ≠ [] → nl ∉ l →
      ((∀ c, parseCompare l ≠ Go.ok c) →
        (compareState txn ⟨l ++ nl :: rest⟩).aborted = true ∧
        (compareStateMem ⟨l ++ nl :: rest⟩ txn).1.aborted = true ∧
        (compareStateMem ⟨l ++ nl :: rest⟩ txn).2 = txn) ∧
      ((∀ u, parseRequestUnion l ≠ Go.ok u) →
        (successState txn ⟨l ++ nl :: rest⟩).aborted = true ∧
        (successStateMem ⟨l ++ nl :: rest⟩ txn).1.aborted = true ∧
        (successStateMem ⟨l ++ nl :: rest⟩ txn).2 = txn ∧
        (failureState txn ⟨l ++ nl :: rest⟩).aborted = true ∧
        (failureStateMem ⟨l ++ nl :: rest⟩ txn).1.aborted = true ∧
        (failureStateMem ⟨l ++ nl :: rest⟩ txn).2 = txn)) ∧
    (∀ txn r,
      (∃ cs, cs.length ≤ 1 ∧ (compareStateMem r txn).2 =
        { Compare := txn.Compare ++ cs, Success := txn.Success, Failure := txn.Failure }) ∧
      (∃ us, us.length ≤ 1 ∧ (successStateMem r txn).2 =
        { Compare := txn.Compare, Success := txn.Success ++ us, Failure := txn.Failure }) ∧
      (∃ us, us.length ≤ 1 ∧ (failureStateMem r txn).2 =
        { Compare := txn.Compare, Success := txn.Success, Failure := txn.Failure ++ us })) := by
  refine ⟨?_, ?_, ?_, ?_, ?_, ?_, ?_⟩
  · intro txn r
    exact ⟨lineStepMem_agrees parseCompare addCompare .compare (some .success) txn r,
      lineStepMem_agrees parseRequestUnion addSuccess .success (some .failure) txn r,
      lineStepMem_agrees parseRequestUnion addFailure .failure none txn r⟩
  · intro txn l rest c hne hl hp
    have h := lineStep_line parseCompare addCompare .compare (some .success) txn hne hl rest
    rw [hp] at h
    exact h
  · intro txn l rest u hne hl hp
    have h := lineStep_line parseRequestUnion addSuccess .success (some .failure) txn hne hl rest
    rw [hp] at h
    exact h
  · intro txn l rest u hne hl hp
    have h := lineStep_line parseRequestUnion addFailure .failure none txn hne hl rest
    rw [hp] at h
    exact h
  · intro txn rest
    exact ⟨lineStep_empty parseCompare addCompare .compare (some .success) txn rest,
      lineStep_empty parseRequestUnion addSuccess .success (some .failure) txn rest,
      lineStep_empty parseRequestUnion addFailure .failure none txn rest⟩
  · intro txn l rest hne hl
    constructor
    · intro hbad
      have h : (stateFunc.compare.call txn ⟨l ++ nl :: rest⟩).aborted = true :=
        @lineStep_reject _ parseCompare addCompare .compare (some .success) txn l hne hl hbad rest
      have hm := lineStepMem_reject parseCompare addCompare .compare (some .success) txn hne hl
        hbad rest
      exact ⟨h, hm.1, hm.2⟩
    · intro hbad
      have h1 : (stateFunc.success.call txn ⟨l ++ nl :: rest⟩).aborted = true :=
        @lineStep_reject _ parseRequestUnion addSuccess .success (some .failure) txn l hne hl
          hbad rest
      have h2 : (stateFunc.failure.call txn ⟨l ++ nl :: rest⟩).aborted = true :=
        @lineStep_reject _ parseRequestUnion addFailure .failure none txn l hne hl hbad rest
      have m1 := lineStepMem_reject parseRequestUnion addSuccess .success (some .failure) txn
        hne hl hbad rest
      have m2 := lineStepMem_reject parseRequestUnion addFailure .failure none txn hne hl hbad
        rest
      exact ⟨h1, m1.1, m1.2, h2, m2.1, m2.2⟩
  · intro txn r
    refine ⟨?_, ?_, ?_⟩
    · rcases lineStepMem_request parseCompare addCompare .compare (some .success) txn r
        with h | ⟨a, h⟩
      · exact ⟨[], by simp, by rw [compareStateMem_eq, h]; simp⟩
      · exact ⟨[a], by simp, by rw [compareStateMem_eq, h]; simp [addCompare]⟩
    · rcases lineStepMem_request parseRequestUnion addSuccess .success (some .failure) txn r
        with h | ⟨a, h⟩
      · exact ⟨[], by simp, by rw [successStateMem_eq, h]; simp⟩
      · exact ⟨[a], by simp, by rw [successStateMem_eq, h]; simp [addSuccess]⟩
    · rcases lineStepMem_request parseRequestUnion addFailure .failure none txn r
        with h | ⟨a, h⟩
      · exact ⟨[], by simp, by rw [failureStateMem_eq, h]; simp⟩
      · exact ⟨[a], by simp, by rw [failureStateMem_eq, h]; simp [addFailure]⟩

/-- The statements of `step_frame` on concrete lines: the step of SUCCESS on the
line `p k1 v1` appends one put request to the success list of a request that
holds a comparison, and the step of COMPARE on the line `foo bad g 3` ends the
process with the request in memory as it was, a request that holds a comparison. -/
theorem step_frame_witness :
    successState { Compare := [{ Key := some (str "k") }] } ⟨str "p k1 v1" ++ nl :: str "x"⟩ =
      Go.ok (some .success,
        { Compare := [{ Key := some (str "k") }],
          Success := [] ++ [{ RequestPut := some { Key := some (str "k1"),
                                                   Value := some (str "v1") } }],
          Failure := [] },
        ⟨str "x"⟩) ∧
    ((compareState { Compare := [{ Key := some (str "k") }] }
        ⟨str "foo bad g 3" ++ nl :: []⟩).aborted = true ∧
      (compareStateMem ⟨str "foo bad g 3" ++ nl :: []⟩
        { Compare := [{ Key := some (str "k") }] }).1.aborted = true ∧
      (compareStateMem ⟨str "foo bad g 3" ++ nl :: []⟩
        { Compare := [{ Key := some (str "k") }] }).2 = { Compare := [{ Key := some (str "k") }] }) :=
  ⟨step_frame.2.2.1 { Compare := [{ Key := some (str "k") }] } (str "p k1 v1") (str "x")
      { RequestPut := some { Key := some (str "k1"), Value := some (str "v1") } }
      (by decide) (by decide) (by decide),
   (step_frame.2.2.2.2.2.1 { Compare := [{ Key := some (str "k") }] } (str "foo bad g 3") []
      (by decide) (by decide)).1
      (by
        intro c
        have h : parseCompare (str "foo bad g 3") =
            Go.fail (fmt.Errorf msgCompare (str "foo bad g 3")) := by decide
        rw [h]
        simp)⟩

/-! ## Termination of the collector -/

/-- A step that returns has read exactly one line: the bytes up to and including
the first terminator. -/
theorem call_consumes {st : stateFunc} {txn : pb.TxnRequest} {r : bufio.Reader}
    {n : Option stateFunc} {t : pb.TxnRequest} {r1 : bufio.Reader}
    (h : st.call txn r = Go.ok (n, t, r1)) :
    ∃ l, nl ∉ l ∧ r.unread = l ++ nl :: r1.unread := by
  have key : ∀ {α : Type} {parse : GoString → Go α} {add : pb.TxnRequest → α → pb.TxnRequest}
      {next : Option stateFunc}, lineStep parse add st next txn r = Go.ok (n, t, r1) →
      ∃ l, nl ∉ l ∧ r.unread = l ++ nl :: r1.unread := by
    intro α parse add next h1
    rcases lineStep_ok_inv h1 with ⟨hr, -⟩ | ⟨l, a, -, hl, hr, -⟩
    · exact ⟨[], by simp, by simpa using hr⟩
    · exact ⟨l, hl, hr⟩
  cases st
  · rw [call_compare] at h
    exact key h
  · rw [call_success] at h
    exact key h
  · rw [call_failure] at h
    exact key h

theorem count_nl_consumed {l : GoString} (hl : nl ∉ l) (rest : GoString) :
    (l ++ nl :: rest).count nl = rest.count nl + 1 := by
  rw [List.count_append, List.count_cons_self, List.count_eq_zero.mpr hl]
  omega

/-- With more iterations than unread lines the loop ends: with a request or with
an abort. -/
theorem collectLoop_enough_lines (fuel : Nat) (st : Option stateFunc) (txn : pb.TxnRequest)
    (r : bufio.Reader) (h : r.unread.count nl < fuel) :
    ∃ o, collectLoop fuel st txn r = some o ∧ (o.completed = true ∨ o.aborted = true) := by
  induction fuel generalizing st txn r with
  | zero => omega
  | succ fuel ih =>
    rcases st with _ | st
    · exact ⟨_, collectLoop_none _ _ _, Or.inl rfl⟩
    · rw [collectLoop_succ]
      rcases call_cases st txn r with ⟨n, t, r1, hc, -⟩ | ⟨c, e, hc⟩ | ⟨p, hc⟩
      · obtain ⟨l, hl, hr⟩ := call_consumes hc
        have hcount := count_nl_consumed hl r1.unread
        rw [← hr] at hcount
        rw [hc]
        exact ih n t r1 (by omega)
      · rw [hc]
        exact ⟨_, rfl, Or.inr rfl⟩
      · rw [hc]
        exact ⟨_, rfl, Or.inr rfl⟩

/-- C19: the collector terminates on every input. The loop started in COMPARE
with the empty request ends, with a completed request or with an abort, within
one iteration for each line terminator of the input plus one, and this is the
outcome of the collector; from any state, more iterations than unread line
terminators suffice. A step that returns has read exactly one line, the bytes up
to and including the first terminator. With the nil `stateFunc` (TERMINAL) the
loop ends without a read: the reader is returned as it is. -/
theorem collector_terminates (stdin : GoString) :
    (∃ o, collectLoop (stdin.count nl + 1) (some .compare) {} ⟨stdin⟩ = some o ∧
      (o.completed = true ∨ o.aborted = true) ∧ txnCollect stdin = some o) ∧
    (∀ fuel st txn r, (r.unread).count nl < fuel →
      ∃ o, collectLoop fuel st txn r = some o ∧ (o.completed = true ∨ o.aborted = true)) ∧
    (∀ (st : stateFunc) txn r next txn1 r1, st.call txn r = Go.ok (next, txn1, r1) →
      ∃ l, nl ∉ l ∧ r.unread = l ++ nl :: r1.unread) ∧
    (∀ fuel txn r, collectLoop fuel none txn r = some (Go.ok (txn, r))) := by
  refine ⟨?_, collectLoop_enough_lines, fun st txn r next txn1 r1 h => call_consumes h,
    collectLoop_none⟩
  obtain ⟨o, ho, hend⟩ :=
    collectLoop_enough_lines (stdin.count nl + 1) (some .compare) {} ⟨stdin⟩ (by simp)
  refine ⟨o, ho, hend, ?_⟩
  have hle := List.count_le_length nl stdin
  have hm := collectLoop_mono ho (stdin.length - stdin.count nl)
  have e : stdin.count nl + 1 + (stdin.length - stdin.count nl) = stdin.length + 1 := by omega
  rw [e] at hm
  exact hm

/-- The statements of `collector_terminates` on concrete inputs: on an input of
two lines and an unterminated rest three iterations end the loop, with an abort;
and the step of COMPARE on `a m e 7` followed by `rest` reads that line only. -/
theorem collector_terminates_witness :
    (∃ o, collectLoop 3 (some .compare) {} ⟨str "k1 ver g 1\n\np k1"⟩ = some o ∧
      (o.completed = true ∨ o.aborted = true)) ∧
    (∃ l, nl ∉ l ∧ str "a m e 7\nrest" = l ++ nl :: str "rest") :=
  ⟨(collector_terminates []).2.1 3 (some .compare) {} ⟨str "k1 ver g 1\n\np k1"⟩ (by decide),
   (collector_terminates []).2.2.1 .compare {} ⟨str "a m e 7\nrest"⟩ (some .compare)
      { Compare := [{ Key := some (str "a"), Target := pb.Compare_MOD,
                      Result := pb.Compare_EQUAL, ModRevision := 7 }] }
      ⟨str "rest"⟩ (by decide)⟩

/-! ## Aliases of the tokens -/

theorem withTarget_ok_congr {line line2 f1 a b f4 : GoString} {x : pb.Compare}
    (h1 : (a = str "ver" ∨ a = str "version") ↔ (b = str "ver" ∨ b = str "version"))
    (h2 : (a = str "c" ∨ a = str "create") ↔ (b = str "c" ∨ b = str "create"))
    (h3 : (a = str "m" ∨ a = str "mod") ↔ (b = str "m" ∨ b = str "mod"))
    (h4 : (a = str "val" ∨ a = str "value") ↔ (b = str "val" ∨ b = str "value")) :
    withTarget line f1 a f4 = Go.ok x ↔ withTarget line2 f1 b f4 = Go.ok x := by
  unfold withTarget
  by_cases c1 : b = str "ver" ∨ b = str "version"
  · rw [if_pos (h1.mpr c1), if_pos c1, intPayload_eq_ok, intPayload_eq_ok]
  · rw [if_neg (fun h => c1 (h1.mp h)), if_neg c1]
    by_cases c2 : b = str "c" ∨ b = str "create"
    · rw [if_pos (h2.mpr c2), if_pos c2, intPayload_eq_ok, intPayload_eq_ok]
    · rw [if_neg (fun h => c2 (h2.mp h)), if_neg c2]
      by_cases c3 : b = str "m" ∨ b = str "mod"
      · rw [if_pos (h3.mpr c3), if_pos c3, intPayload_eq_ok, intPayload_eq_ok]
      · rw [if_neg (fun h => c3 (h3.mp h)), if_neg c3]
        by_cases c4 : b = str "val" ∨ b = str "value"
        · rw [if_pos (h4.mpr c4), if_pos c4]
        · rw [if_neg (fun h => c4 (h4.mp h)), if_neg c4]
          constructor <;> intro h <;> cases h

theorem withResult_ok_congr {line line2 a b : GoString} {x c : pb.Compare}
    (h1 : (a = str "g" ∨ a = str "greater") ↔ (b = str "g" ∨ b = str "greater"))
    (h2 : (a = str "e" ∨ a = str "equal") ↔ (b = str "e" ∨ b = str "equal"))
    (h3 : (a = str "l" ∨ a = str "less") ↔ (b = str "l" ∨ b = str "less")) :
    withResult line a x = Go.ok c ↔ withResult line2 b x = Go.ok c := by
  unfold withResult
  by_cases c1 : b = str "g" ∨ b = str "greater"
  · rw [if_pos (h1.mpr c1), if_pos c1]
  · rw [if_neg (fun h => c1 (h1.mp h)), if_neg c1]
    by_cases c2 : b = str "e" ∨ b = str "equal"
    · rw [if_pos (h2.mpr c2), if_pos c2]
    · rw [if_neg (fun h => c2 (h2.mp h)), if_neg c2]
      by_cases c3 : b = str "l" ∨ b = str "less"
      · rw [if_pos (h3.mpr c3), if_pos c3]
      · rw [if_neg (fun h => c3 (h3.mp h)), if_neg c3]
        constructor <;> intro h <;> cases h

theorem parseCompare_fail_iff_not_ok (line : GoString) :
    (∃ e, parseCompare line = Go.fail e) ↔ ¬ ∃ c, parseCompare line = Go.ok c := by
  constructor
  · rintro ⟨e, he⟩ ⟨c, hc⟩
    rw [he] at hc
    cases hc
  · intro hno
    rcases parseCompare_ok_or_fail line with hc | hf
    · exact absurd hc hno
    · exact ⟨_, hf⟩

/-- The outcome of `parseCompare` on two lines whose splits agree up to a change
of fields 2 and 3 that the two switches do not tell apart. -/
theorem parseCompare_congr {line line2 f1 a b : GoString} {rest rest2 : List GoString}
    (hs : strings.Split line sp = f1 :: a :: rest)
    (hs2 : strings.Split line2 sp = f1 :: b :: rest2)
    (hlen : rest.length = rest2.length)
    (hrest : ∀ f3 f4, rest = [f3, f4] → ∃ g3, rest2 = [g3, f4] ∧
      ((f3 = str "g" ∨ f3 = str "greater") ↔ (g3 = str "g" ∨ g3 = str "greater")) ∧
      ((f3 = str "e" ∨ f3 = str "equal") ↔ (g3 = str "e" ∨ g3 = str "equal")) ∧
      ((f3 = str "l" ∨ f3 = str "less") ↔ (g3 = str "l" ∨ g3 = str "less")))
    (h1 : (a = str "ver" ∨ a = str "version") ↔ (b = str "ver" ∨ b = str "version"))
    (h2 : (a = str "c" ∨ a = str "create") ↔ (b = str "c" ∨ b = str "create"))
    (h3 : (a = str "m" ∨ a = str "mod") ↔ (b = str "m" ∨ b = str "mod"))
    (h4 : (a = str "val" ∨ a = str "value") ↔ (b = str "val" ∨ b = str "value")) :
    (∀ c, parseCompare line = Go.ok c ↔ parseCompare line2 = Go.ok c) ∧
    ((∃ e, parseCompare line = Go.fail e) ↔ (∃ e, parseCompare line2 = Go.fail e)) := by
  have hok : ∀ c, parseCompare line = Go.ok c ↔ parseCompare line2 = Go.ok c := by
    intro c
    by_cases h : ∃ f3 f4, rest = [f3, f4]
    · obtain ⟨f3, f4, rfl⟩ := h
      obtain ⟨g3, rfl, r1, r2, r3⟩ := hrest f3 f4 rfl
      rw [parseCompare_eq hs, parseCompare_eq hs2, Go.bind_eq_ok, Go.bind_eq_ok]
      constructor
      · rintro ⟨x, hx, hr⟩
        exact ⟨x, (withTarget_ok_congr h1 h2 h3 h4).mp hx, (withResult_ok_congr r1 r2 r3).mp hr⟩
      · rintro ⟨x, hx, hr⟩
        exact ⟨x, (withTarget_ok_congr h1 h2 h3 h4).mpr hx, (withResult_ok_congr r1 r2 r3).mpr hr⟩
    · have hl : (strings.Split line sp).length ≠ 4 := by
        rw [hs]
        intro h4
        apply h
        rcases rest with _ | ⟨f3, _ | ⟨f4, _ | ⟨f5, t⟩⟩⟩ <;> simp at h4
        exact ⟨f3, f4, rfl⟩
      have hl2 : (strings.Split line2 sp).length ≠ 4 := by
        rw [hs2]
        rw [hs] at hl
        simp only [List.length_cons] at hl ⊢
        omega
      rw [parseCompare_of_length hl, parseCompare_of_length hl2]
      constructor <;> intro h <;> cases h
  refine ⟨hok, ?_⟩
  rw [parseCompare_fail_iff_not_ok, parseCompare_fail_iff_not_ok]
  constructor
  · rintro hno ⟨c, hc⟩
    exact hno ⟨c, (hok c).mpr hc⟩
  · rintro hno ⟨c, hc⟩
    exact hno ⟨c, (hok c).mp hc⟩

theorem parseRequestUnion_congr {line line2 a b : GoString} {rest : List GoString}
    (hs : strings.Split line sp = a :: rest) (hs2 : strings.Split line2 sp = b :: rest)
    (h1 : (a = str "r" ∨ a = str "range") ↔ (b = str "r" ∨ b = str "range"))
    (h2 : (a = str "p" ∨ a = str "put") ↔ (b = str "p" ∨ b = str "put"))
    (h3 : (a = str "d" ∨ a = str "deleteRange") ↔ (b = str "d" ∨ b = str "deleteRange")) :
    (∀ u, parseRequestUnion line = Go.ok u ↔ parseRequestUnion line2 = Go.ok u) ∧
    ((∃ e, parseRequestUnion line = Go.fail e) ↔ (∃ e, parseRequestUnion line2 = Go.fail e)) ∧
    (∀ p, parseRequestUnion line = Go.panic p ↔ parseRequestUnion line2 = Go.panic p) := by
  rcases rest with _ | ⟨f2, rest⟩
  · rw [parseRequestUnion_of_one hs, parseRequestUnion_of_one hs2]
    refine ⟨fun u => ?_, ⟨fun _ => ⟨_, rfl⟩, fun _ => ⟨_, rfl⟩⟩, fun p => ?_⟩
    · constructor <;> intro h <;> cases h
    · constructor <;> intro h <;> cases h
  · rw [parseRequestUnion_eq hs, parseRequestUnion_eq hs2]
    by_cases c1 : b = str "r" ∨ b = str "range"
    · rw [if_pos (h1.mpr c1), if_pos c1]
      exact ⟨fun _ => Iff.rfl, Iff.rfl, fun _ => Iff.rfl⟩
    · rw [if_neg (fun h => c1 (h1.mp h)), if_neg c1]
      by_cases c2 : b = str "p" ∨ b = str "put"
      · rw [if_pos (h2.mpr c2), if_pos c2]
        exact ⟨fun _ => Iff.rfl, Iff.rfl, fun _ => Iff.rfl⟩
      · rw [if_neg (fun h => c2 (h2.mp h)), if_neg c2]
        by_cases c3 : b = str "d" ∨ b = str "deleteRange"
        · rw [if_pos (h3.mpr c3), if_pos c3]
          exact ⟨fun _ => Iff.rfl, Iff.rfl, fun _ => Iff.rfl⟩
        · rw [if_neg (fun h => c3 (h3.mp h)), if_neg c3]
          refine ⟨fun u => ?_, ⟨fun _ => ⟨_, rfl⟩, fun _ => ⟨_, rfl⟩⟩, fun p => ?_⟩
          · constructor <;> intro h <;> cases h
          · constructor <;> intro h <;> cases h

theorem target_alias_conds {a b : GoString}
    (h : (a, b) ∈ [(str "ver", str "version"), (str "c", str "create"), (str "m", str "mod"),
      (str "val", str "value")]) :
    ((a = str "ver" ∨ a = str "version") ↔ (b = str "ver" ∨ b = str "version")) ∧
    ((a = str "c" ∨ a = str "create") ↔ (b = str "c" ∨ b = str "create")) ∧
    ((a = str "m" ∨ a = str "mod") ↔ (b = str "m" ∨ b = str "mod")) ∧
    ((a = str "val" ∨ a = str "value") ↔ (b = str "val" ∨ b = str "value")) := by
  simp only [List.mem_cons, Prod.mk.injEq, List.mem_singleton, List.not_mem_nil, or_false] at h
  rcases h with ⟨rfl, rfl⟩ | ⟨rfl, rfl⟩ | ⟨rfl, rfl⟩ | ⟨rfl, rfl⟩ <;> decide

theorem operator_alias_conds {a b : GoString}
    (h : (a, b) ∈ [(str "g", str "greater"), (str "e", str "equal"), (str "l", str "less")]) :
    ((a = str "g" ∨ a = str "greater") ↔ (b = str "g" ∨ b = str "greater")) ∧
    ((a = str "e" ∨ a = str "equal") ↔ (b = str "e" ∨ b = str "equal")) ∧
    ((a = str "l" ∨ a = str "less") ↔ (b = str "l" ∨ b = str "less")) := by
  simp only [List.mem_cons, Prod.mk.injEq, List.mem_singleton, List.not_mem_nil, or_false] at h
  rcases h with ⟨rfl, rfl⟩ | ⟨rfl, rfl⟩ | ⟨rfl, rfl⟩ <;> decide

theorem method_alias_conds {a b : GoString}
    (h : (a, b) ∈ [(str "r", str "range"), (str "p", str "put"), (str "d", str "deleteRange")]) :
    ((a = str "r" ∨ a = str "range") ↔ (b = str "r" ∨ b = str "range")) ∧
    ((a = str "p" ∨ a = str "put") ↔ (b = str "p" ∨ b = str "put")) ∧
    ((a = str "d" ∨ a = str "deleteRange") ↔ (b = str "d" ∨ b = str "deleteRange")) := by
  simp only [List.mem_cons, Prod.mk.injEq, List.mem_singleton, List.not_mem_nil, or_false] at h
  rcases h with ⟨rfl, rfl⟩ | ⟨rfl, rfl⟩ | ⟨rfl, rfl⟩ <;> decide

/-- C15: short aliases and full words are interchangeable. When a line and a
second line split into the same fields but for the target token (field 2), `ver`
in one and `version` in the other, or `c` and `create`, `m` and `mod`, `val` and
`value`, then `parseCompare` succeeds on both with the same comparison or fails
on both; the same holds for the operator token (field 3) with `g` and `greater`,
`e` and `equal`, `l` and `less`. When they split into the same fields but for
the method token (field 1), `r` and `range`, `p` and `put`, `d` and
`deleteRange`, then `parseRequestUnion` succeeds on both with the same request,
or fails on both, or panics on both in the same way. The text of the error,
which holds the line, is the one thing that differs. -/
theorem alias_interchangeable :
    (∀ (line line2 f1 a b : GoString) (rest : List GoString),
      strings.Split line sp = f1 :: a :: rest → strings.Split line2 sp = f1 :: b :: rest →
      (a, b) ∈ [(str "ver", str "version"), (str "c", str "create"), (str "m", str "mod"),
        (str "val", str "value")] →
      (∀ c, parseCompare line = Go.ok c ↔ parseCompare line2 = Go.ok c) ∧
      ((∃ e, parseCompare line = Go.fail e) ↔ (∃ e, parseCompare line2 = Go.fail e))) ∧
    (∀ (line line2 f1 f2 a b : GoString) (rest : List GoString),
      strings.Split line sp = f1 :: f2 :: a :: rest →
      strings.Split line2 sp = f1 :: f2 :: b :: rest →
      (a, b) ∈ [(str "g", str "greater"), (str "e", str "equal"), (str "l", str "less")] →
      (∀ c, parseCompare line = Go.ok c ↔ parseCompare line2 = Go.ok c) ∧
      ((∃ e, parseCompare line = Go.fail e) ↔ (∃ e, parseCompare line2 = Go.fail e))) ∧
    (∀ (line line2 a b : GoString) (rest : List GoString),
      strings.Split line sp = a :: rest → strings.Split line2 sp = b :: rest →
      (a, b) ∈ [(str "r", str "range"), (str "p", str "put"), (str "d", str "deleteRange")] →
      (∀ u, parseRequestUnion line = Go.ok u ↔ parseRequestUnion line2 = Go.ok u) ∧
      ((∃ e, parseRequestUnion line = Go.fail e) ↔ (∃ e, parseRequestUnion line2 = Go.fail e)) ∧
      (∀ p, parseRequestUnion line = Go.panic p ↔ parseRequestUnion line2 = Go.panic p)) := by
  refine ⟨?_, ?_, ?_⟩
  · intro line line2 f1 a b rest hs hs2 hab
    obtain ⟨h1, h2, h3, h4⟩ := target_alias_conds hab
    exact parseCompare_congr hs hs2 rfl
      (fun f3 f4 h => ⟨f3, h, Iff.rfl, Iff.rfl, Iff.rfl⟩) h1 h2 h3 h4
  · intro line line2 f1 f2 a b rest hs hs2 hab
    obtain ⟨h1, h2, h3⟩ := operator_alias_conds hab
    refine parseCompare_congr hs hs2 (by simp) ?_ Iff.rfl Iff.rfl Iff.rfl Iff.rfl
    intro f3 f4 h
    simp only [List.cons.injEq] at h
    obtain ⟨rfl, rfl⟩ := h
    exact ⟨b, rfl, h1, h2, h3⟩
  · intro line line2 a b rest hs hs2 hab
    obtain ⟨h1, h2, h3⟩ := method_alias_conds hab
    exact parseRequestUnion_congr hs hs2 h1 h2 h3

/-- The statements of `alias_interchangeable` on concrete lines: `foo ver g 3`
and `foo version g 3` give the same comparison, `foo ver g x` and
`foo ver greater x` both fail, and `p foo` and `put foo` panic in the same way. -/
theorem alias_interchangeable_witness :
    parseCompare (str "foo version g 3") =
      Go.ok { Key := some (str "foo"), Target := pb.Compare_VERSION,
              Result := pb.Compare_GREATER, Version := 3 } ∧
    (∃ e, parseCompare (str "foo ver greater x") = Go.fail e) ∧
    parseRequestUnion (str "put foo") = Go.panic (.indexOutOfRange 2 2) :=
  ⟨((alias_interchangeable.1 (str "foo ver g 3") (str "foo version g 3") (str "foo")
        (str "ver") (str "version") [str "g", str "3"] (by decide) (by decide)
        (by decide)).1 _).mp (by decide),
   ((alias_interchangeable.2.1 (str "foo ver g x") (str "foo ver greater x") (str "foo")
        (str "ver") (str "g") (str "greater") [str "x"] (by decide) (by decide)
        (by decide)).2).mp ⟨fmt.Errorf msgCompare (str "foo ver g x"), by decide⟩,
   ((alias_interchangeable.2.2 (str "p foo") (str "put foo") (str "p") (str "put")
        [str "foo"] (by decide) (by decide) (by decide)).2.2 _).mp (by decide)⟩

/-! ## The integer field: `strconv.ParseInt` against the decimal reading -/

theorem digitVal_of_digit {d : Byte} (h : isDigit d = true) :
    strconv.digitVal d = some (d.val - 48) ∧ d.val - 48 < 10 := by
  simp only [isDigit, decide_eq_true_eq] at h
  unfold strconv.digitVal
  rw [if_pos h]
  exact ⟨rfl, by omega⟩

theorem digit_of_digitVal {d : Byte} {v : Nat} (h : strconv.digitVal d = some v) (hv : v < 10) :
    isDigit d = true := by
  simp only [isDigit, decide_eq_true_eq]
  unfold strconv.digitVal at h
  split_ifs at h with h1 h2 h3
  · exact h1
  · simp only [Option.some.injEq] at h
    omega
  · simp only [Option.some.injEq] at h
    omega

theorem decimalFrom_cons (acc : Nat) (d : Byte) (ds : GoString) :
    decimalFrom acc (d :: ds) = decimalFrom (10 * acc + (d.val - 48)) ds := rfl

theorem decimalFrom_ge (acc : Nat) (ds : GoString) : acc ≤ decimalFrom acc ds := by
  induction ds generalizing acc with
  | nil => exact Nat.le_refl _
  | cons d ds ih =>
    rw [decimalFrom_cons]
    have := ih (10 * acc + (d.val - 48))
    omega

theorem cutoff64_ten : strconv.cutoff64 10 = 1844674407370955162 := by decide

theorem maxVal_64 : strconv.wrap64 (strconv.wrap64 (2 ^ 64) + 2 ^ 64 - 1) = 18446744073709551615 := by
  decide

/-- The digit loop on decimal digits: the number they denote, or the range
error when that number does not fit 64 bits. -/
theorem parseUintLoop_digits (ds : GoString) (n : Nat) (hds : ∀ d ∈ ds, isDigit d = true)
    (hn : n < 18446744073709551616) :
    strconv.parseUintLoop 10 18446744073709551615 ds n =
      if decimalFrom n ds < 18446744073709551616 then (decimalFrom n ds, none)
      else (18446744073709551615, some .ErrRange) := by
  induction ds generalizing n with
  | nil => simp [strconv.parseUintLoop, decimalFrom, hn]
  | cons d ds ih =>
    obtain ⟨hv, hlt⟩ := digitVal_of_digit (hds d (by simp))
    have hge := decimalFrom_ge (10 * n + (d.val - 48)) ds
    rw [decimalFrom_cons]
    simp only [strconv.parseUintLoop, hv, cutoff64_ten, strconv.wrap64]
    rw [if_neg (by omega)]
    by_cases h1 : n ≥ 1844674407370955162
    · rw [if_pos h1, if_neg (by omega)]
      rfl
    · rw [if_neg h1]
      have e1 : n * 10 % 2 ^ 64 = n * 10 := Nat.mod_eq_of_lt (by omega)
      rw [e1]
      by_cases h2 : n * 10 + (d.val - 48) < 18446744073709551616
      · have e2 : (n * 10 + (d.val - 48)) % 2 ^ 64 = n * 10 + (d.val - 48) :=
          Nat.mod_eq_of_lt (by omega)
        rw [e2, if_neg (by omega), ih _ (fun x hx => hds x (List.mem_cons_of_mem _ hx)) h2]
        have e3 : 10 * n + (d.val - 48) = n * 10 + (d.val - 48) := by omega
        rw [e3]
      · have e2 : (n * 10 + (d.val - 48)) % 2 ^ 64 = n * 10 + (d.val - 48) - 2 ^ 64 := by
          omega
        rw [e2, if_pos (by omega), if_neg (by omega)]
        rfl

/-- The digit loop on bytes that are not all decimal digits: an error. -/
theorem parseUintLoop_not_digits (ds : GoString) (n : Nat)
    (hds : ¬ ∀ d ∈ ds, isDigit d = true) :
    strconv.parseUintLoop 10 18446744073709551615 ds n = (0, some .ErrSyntax) ∨
    strconv.parseUintLoop 10 18446744073709551615 ds n =
      (18446744073709551615, some .ErrRange) := by
  induction ds generalizing n with
  | nil => simp at hds
  | cons d ds ih =>
    unfold strconv.parseUintLoop
    rcases hv : strconv.digitVal d with _ | v
    · exact Or.inl rfl
    · simp only
      by_cases h0 : v ≥ 10
      · rw [if_pos h0]
        exact Or.inl rfl
      · rw [if_neg h0]
        have hd : isDigit d = true := digit_of_digitVal hv (by omega)
        have hrest : ¬ ∀ x ∈ ds, isDigit x = true := by
          intro hall
          apply hds
          intro x hx
          rcases List.mem_cons.mp hx with rfl | hx
          · exact hd
          · exact hall x hx
        split_ifs
        · exact Or.inr rfl
        · exact Or.inr rfl
        · exact ih _ hrest

theorem all_isDigit_iff (ds : GoString) :
    ds.all isDigit = true ↔ ∀ d ∈ ds, isDigit d = true := by
  simp [List.all_eq_true]

/-- The unsigned part of `ParseInt`, on the bytes after the sign. -/
theorem ParseUint_cases (ds : GoString) :
    (ds ≠ [] ∧ ds.all isDigit = true ∧ decimalValue ds < 18446744073709551616 ∧
      strconv.ParseUint ds 10 64 = (decimalValue ds, none)) ∨
    (ds ≠ [] ∧ ds.all isDigit = true ∧ 18446744073709551616 ≤ decimalValue ds ∧
      strconv.ParseUint ds 10 64 = (18446744073709551615, some .ErrRange)) ∨
    (¬ (ds ≠ [] ∧ ds.all isDigit = true) ∧
      (strconv.ParseUint ds 10 64 = (0, some .ErrSyntax) ∨
       strconv.ParseUint ds 10 64 = (18446744073709551615, some .ErrRange))) := by
  unfold strconv.ParseUint
  rw [maxVal_64]
  rcases ds with _ | ⟨d, ds⟩
  · exact Or.inr (Or.inr ⟨by simp, Or.inl rfl⟩)
  · have hlen : ¬ (d :: ds).length < 1 := by simp
    rw [if_neg hlen]
    by_cases hall : (d :: ds).all isDigit = true
    · have h := parseUintLoop_digits (d :: ds) 0 ((all_isDigit_iff _).mp hall) (by omega)
      by_cases hv : decimalValue (d :: ds) < 18446744073709551616
      · left
        refine ⟨by simp, hall, hv, ?_⟩
        have hv1 : decimalFrom 0 (d :: ds) < 18446744073709551616 := hv
        rw [h, if_pos hv1]
        rfl
      · right; left
        refine ⟨by simp, hall, by omega, ?_⟩
        have hv1 : ¬ decimalFrom 0 (d :: ds) < 18446744073709551616 := hv
        rw [h, if_neg hv1]
    · right; right
      refine ⟨fun h => hall h.2, ?_⟩
      exact parseUintLoop_not_digits (d :: ds) 0 (fun h => hall ((all_isDigit_iff _).mpr h))

theorem toInt64_small {u : Nat} (h : u < 9223372036854775808) : strconv.toInt64 u = (u : Int) := by
  unfold strconv.toInt64
  have e : u % 2 ^ 64 = u := Nat.mod_eq_of_lt (by omega)
  rw [e, if_pos (by omega)]

/-- The function `strconv.ParseInt(s, 10, 64)` returns the integer `n` and a nil
error exactly when `s` is a base-10 signed 64-bit integer that denotes `n`. -/
theorem ParseInt_eq_iff (s : GoString) (n : Int) :
    strconv.ParseInt s 10 64 = (n, none) ↔ int64Literal s = some n := by
  unfold strconv.ParseInt int64Literal
  by_cases hs : s.length = 0
  · have hnil : s = [] := List.length_eq_zero.mp hs
    subst hnil
    simp
  · rw [if_neg hs]
    simp only
    generalize (if s.head? = some 43 ∨ s.head? = some 45 then s.drop 1 else s) = ds
    have hcut : strconv.wrap64 (2 ^ (64 - 1)) = 9223372036854775808 := by decide
    rw [hcut]
    rcases ParseUint_cases ds with ⟨hne, hall, hv, hp⟩ | ⟨hne, hall, hv, hp⟩ | ⟨hno, hp | hp⟩
    · rw [hp, if_pos ⟨hne, hall⟩]
      simp only
      by_cases hneg : s.head? = some 45
      · simp only [hneg, not_true_eq_false, false_and, if_false, true_and, if_true]
        by_cases h1 : decimalValue ds > 9223372036854775808
        · rw [if_pos h1, if_neg (by omega)]
          simp
        · rw [if_neg h1, if_pos (by omega)]
          have hneg64 : strconv.negInt64 (strconv.toInt64 (decimalValue ds))
              = -(decimalValue ds : Int) := by
            by_cases h2 : decimalValue ds = 9223372036854775808
            · rw [h2]
              decide
            · rw [toInt64_small (by omega)]
              unfold strconv.negInt64
              rw [if_neg (by omega)]
          rw [hneg64]
          simp [eq_comm]
      · simp only [hneg, not_false_eq_true, true_and, false_and, if_false]
        by_cases h1 : decimalValue ds ≥ 9223372036854775808
        · rw [if_pos h1, if_neg (by omega)]
          simp
        · rw [if_neg h1, if_pos (by omega), toInt64_small (by omega)]
          simp [eq_comm]
    · rw [hp, if_pos ⟨hne, hall⟩]
      simp only
      by_cases hneg : s.head? = some 45
      · simp only [hneg, not_true_eq_false, false_and, if_false, true_and, if_true]
        rw [if_pos (by omega), if_neg (by omega)]
        simp
      · simp only [hneg, not_false_eq_true, true_and, false_and, if_false]
        rw [if_pos (by omega), if_neg (by omega)]
        simp
    · rw [hp, if_neg hno]
      simp
    · rw [hp, if_neg hno]
      simp only
      by_cases hneg : s.head? = some 45
      · simp only [hneg, not_true_eq_false, false_and, if_false, true_and, if_true]
        rw [if_pos (by omega)]
        simp
      · simp only [hneg, not_false_eq_true, true_and, false_and, if_false]
        rw [if_pos (by omega)]
        simp

/-- The test of the decimal reading on the bytes after the sign. -/
theorem int64Literal_body (neg : Prop) [Decidable neg] (ds : GoString) (n : Int) :
    (if ds ≠ [] ∧ ds.all isDigit = true then
        (if -(2 : Int) ^ 63 ≤ (if neg then -(decimalValue ds : Int) else (decimalValue ds : Int)) ∧
            (if neg then -(decimalValue ds : Int) else (decimalValue ds : Int)) ≤ 2 ^ 63 - 1
          then some (if neg then -(decimalValue ds : Int) else (decimalValue ds : Int))
          else none)
      else none) = some n ↔
    ds ≠ [] ∧ (∀ d ∈ ds, 48 ≤ d.val ∧ d.val ≤ 57) ∧
      n = (if neg then -(decimalValue ds : Int) else (decimalValue ds : Int)) ∧
      -(2 : Int) ^ 63 ≤ n ∧ n ≤ 2 ^ 63 - 1 := by
  have hdig : ds.all isDigit = true ↔ ∀ d ∈ ds, 48 ≤ d.val ∧ d.val ≤ 57 := by
    simp [List.all_eq_true, isDigit]
  by_cases hd : ds ≠ [] ∧ ds.all isDigit = true
  · rw [if_pos hd]
    by_cases hr : -(2 : Int) ^ 63 ≤ (if neg then -(decimalValue ds : Int) else (decimalValue ds : Int)) ∧
        (if neg then -(decimalValue ds : Int) else (decimalValue ds : Int)) ≤ 2 ^ 63 - 1
    · rw [if_pos hr]
      constructor
      · intro h
        simp only [Option.some.injEq] at h
        subst h
        exact ⟨hd.1, hdig.mp hd.2, rfl, hr.1, hr.2⟩
      · rintro ⟨-, -, rfl, -, -⟩
        rfl
    · rw [if_neg hr]
      constructor
      · intro h
        cases h
      · rintro ⟨-, -, rfl, h1, h2⟩
        exact absurd ⟨h1, h2⟩ hr
  · rw [if_neg hd]
    constructor
    · intro h
      cases h
    · rintro ⟨h1, h2, -⟩
      exact absurd ⟨h1, hdig.mpr h2⟩ hd

/-- The decimal reading spelled out: an optional single sign, one or more
decimal digits, and the integer they denote within the signed 64-bit range. -/
theorem int64Literal_eq_some_iff (s : GoString) (n : Int) :
    int64Literal s = some n ↔
      ∃ sign digits : GoString, s = sign ++ digits ∧
        (sign = [] ∨ sign = [43] ∨ sign = [45]) ∧ digits ≠ [] ∧
        (∀ d ∈ digits, 48 ≤ d.val ∧ d.val ≤ 57) ∧
        n = (if sign = [45] then -(decimalValue digits : Int) else (decimalValue digits : Int)) ∧
        -(2 : Int) ^ 63 ≤ n ∧ n ≤ 2 ^ 63 - 1 := by
  have h43 : (43 : Byte) ≠ 45 := by decide
  have d43 : ¬ (48 ≤ (43 : Byte).val ∧ (43 : Byte).val ≤ 57) := by decide
  have d45 : ¬ (48 ≤ (45 : Byte).val ∧ (45 : Byte).val ≤ 57) := by decide
  have e1 : ([] : GoString) ≠ [45] := by decide
  have e2 : ([43] : GoString) ≠ [45] := by decide
  rcases s with _ | ⟨b, t⟩
  · constructor
    · intro h
      have h0 : int64Literal [] = none := by decide
      rw [h0] at h
      cases h
    · rintro ⟨sign, digits, hs, -, hne, -⟩
      have := List.append_eq_nil.mp hs.symm
      exact absurd this.2 hne
  · by_cases hb1 : b = 43
    · subst hb1
      have hl : int64Literal (43 :: t) =
          (if t ≠ [] ∧ t.all isDigit = true then
            (if -(2 : Int) ^ 63 ≤ (if (some (43 : Byte) = some 45) then -(decimalValue t : Int)
                  else (decimalValue t : Int)) ∧
                (if (some (43 : Byte) = some 45) then -(decimalValue t : Int)
                  else (decimalValue t : Int)) ≤ 2 ^ 63 - 1
              then some (if (some (43 : Byte) = some 45) then -(decimalValue t : Int)
                  else (decimalValue t : Int))
              else none)
          else none) := by
        simp [int64Literal]
      rw [hl, int64Literal_body]
      have hneg : ¬ (some (43 : Byte) = some 45) := by simp [h43]
      rw [if_neg hneg]
      constructor
      · rintro ⟨hne, hall, hn, hlo, hhi⟩
        exact ⟨[43], t, rfl, Or.inr (Or.inl rfl), hne, hall, by rw [if_neg e2]; exact hn, hlo, hhi⟩
      · rintro ⟨sign, digits, hs, hsign, hne, hall, hn, hlo, hhi⟩
        rcases hsign with rfl | rfl | rfl
        · simp only [List.nil_append] at hs
          subst hs
          exact absurd (hall 43 (by simp)) d43
        · simp only [List.singleton_append, List.cons.injEq, true_and] at hs
          subst hs
          rw [if_neg e2] at hn
          exact ⟨hne, hall, hn, hlo, hhi⟩
        · simp only [List.singleton_append, List.cons.injEq] at hs
          exact absurd hs.1 h43
    · by_cases hb2 : b = 45
      · subst hb2
        have hl : int64Literal (45 :: t) =
            (if t ≠ [] ∧ t.all isDigit = true then
              (if -(2 : Int) ^ 63 ≤ (if (some (45 : Byte) = some 45) then -(decimalValue t : Int)
                    else (decimalValue t : Int)) ∧
                  (if (some (45 : Byte) = some 45) then -(decimalValue t : Int)
                    else (decimalValue t : Int)) ≤ 2 ^ 63 - 1
                then some (if (some (45 : Byte) = some 45) then -(decimalValue t : Int)
                    else (decimalValue t : Int))
                else none)
            else none) := by
          simp [int64Literal]
        rw [hl, int64Literal_body, if_pos rfl]
        constructor
        · rintro ⟨hne, hall, hn, hlo, hhi⟩
          exact ⟨[45], t, rfl, Or.inr (Or.inr rfl), hne, hall, by rw [if_pos rfl]; exact hn,
            hlo, hhi⟩
        · rintro ⟨sign, digits, hs, hsign, hne, hall, hn, hlo, hhi⟩
          rcases hsign with rfl | rfl | rfl
          · simp only [List.nil_append] at hs
            subst hs
            exact absurd (hall 45 (by simp)) d45
          · simp only [List.singleton_append, List.cons.injEq] at hs
            exact absurd hs.1.symm h43
          · simp only [List.singleton_append, List.cons.injEq, true_and] at hs
            subst hs
            rw [if_pos rfl] at hn
            exact ⟨hne, hall, hn, hlo, hhi⟩
      · have hl : int64Literal (b :: t) =
            (if b :: t ≠ [] ∧ (b :: t).all isDigit = true then
              (if -(2 : Int) ^ 63 ≤ (if (some b = some 45) then -(decimalValue (b :: t) : Int)
                    else (decimalValue (b :: t) : Int)) ∧
                  (if (some b = some 45) then -(decimalValue (b :: t) : Int)
                    else (decimalValue (b :: t) : Int)) ≤ 2 ^ 63 - 1
                then some (if (some b = some 45) then -(decimalValue (b :: t) : Int)
                    else (decimalValue (b :: t) : Int))
                else none)
            else none) := by
          simp [int64Literal, hb1, hb2]
        rw [hl, int64Literal_body]
        have hneg : ¬ (some b = some 45) := by simp [hb2]
        rw [if_neg hneg]
        constructor
        · rintro ⟨hne, hall, hn, hlo, hhi⟩
          exact ⟨[], b :: t, rfl, Or.inl rfl, hne, hall, by rw [if_neg e1]; exact hn, hlo, hhi⟩
        · rintro ⟨sign, digits, hs, hsign, hne, hall, hn, hlo, hhi⟩
          rcases hsign with rfl | rfl | rfl
          · simp only [List.nil_append] at hs
            subst hs
            rw [if_neg e1] at hn
            exact ⟨hne, hall, hn, hlo, hhi⟩
          · simp only [List.singleton_append, List.cons.injEq] at hs
            exact absurd hs.1 hb1
          · simp only [List.singleton_append, List.cons.injEq] at hs
            exact absurd hs.1 hb2

theorem ParseInt_nil_iff (s : GoString) :
    (strconv.ParseInt s 10 64).2 = none ↔ ∃ n, int64Literal s = some n := by
  constructor
  · intro h
    refine ⟨(strconv.ParseInt s 10 64).1, (ParseInt_eq_iff s _).mp ?_⟩
    rw [← h]
  · rintro ⟨n, hn⟩
    rw [(ParseInt_eq_iff s n).mpr hn]

/-- C14: on a line of four fields whose target token selects VERSION, CREATE or
MOD and whose operator token is valid, `parseCompare` succeeds exactly when
field 4 is a base-10 signed 64-bit integer: an optional single `+` or `-`, then
one or more ASCII decimal digits, denoting an integer `n` with
`-2^63 <= n <= 2^63 - 1`; the integer payload of the target is then `n`.
Otherwise (empty field, a byte that is no digit, a value out of range) the call
returns the error of the line. -/
theorem parseCompare_integer_field (line f1 f2 f3 f4 : GoString)
    (hs : strings.Split line sp = [f1, f2, f3, f4])
    (h2 : f2 ∈ [str "ver", str "version", str "c", str "create", str "m", str "mod"])
    (h3 : f3 ∈ [str "g", str "greater", str "e", str "equal", str "l", str "less"]) :
    ((∃ c, parseCompare line = Go.ok c) ↔ ∃ n, int64Literal f4 = some n) ∧
    (∀ n, int64Literal f4 = some n ↔
      ∃ sign digits : GoString, f4 = sign ++ digits ∧
        (sign = [] ∨ sign = [43] ∨ sign = [45]) ∧ digits ≠ [] ∧
        (∀ d ∈ digits, 48 ≤ d.val ∧ d.val ≤ 57) ∧
        n = (if sign = [45] then -(decimalValue digits : Int) else (decimalValue digits : Int)) ∧
        -(2 : Int) ^ 63 ≤ n ∧ n ≤ 2 ^ 63 - 1) ∧
    (∀ c n, parseCompare line = Go.ok c → int64Literal f4 = some n →
      ((f2 = str "ver" ∨ f2 = str "version") → c.Version = n) ∧
      ((f2 = str "c" ∨ f2 = str "create") → c.CreateRevision = n) ∧
      ((f2 = str "m" ∨ f2 = str "mod") → c.ModRevision = n)) ∧
    (int64Literal f4 = none → parseCompare line = Go.fail (fmt.Errorf msgCompare line)) := by
  have hiff : (∃ c, parseCompare line = Go.ok c) ↔ ∃ n, int64Literal f4 = some n := by
    rw [parseCompare_eq hs, ← ParseInt_nil_iff]
    constructor
    · rintro ⟨c, hc⟩
      obtain ⟨a, ha, -⟩ := Go.bind_eq_ok.mp hc
      obtain ⟨-, k1, k2, k3, -⟩ := withTarget_ok ha
      simp only [List.mem_cons, List.mem_singleton, List.not_mem_nil, or_false] at h2
      rcases h2 with h | h | h | h | h | h
      · rw [(k1 (Or.inl h)).2]
      · rw [(k1 (Or.inr h)).2]
      · rw [(k2 (Or.inl h)).2]
      · rw [(k2 (Or.inr h)).2]
      · rw [(k3 (Or.inl h)).2]
      · rw [(k3 (Or.inr h)).2]
    · intro hp
      have hmem : f2 ∈ [str "ver", str "version", str "c", str "create", str "m", str "mod",
          str "val", str "value"] :=
        List.mem_append_left [str "val", str "value"] h2
      obtain ⟨a, ha⟩ := (withTarget_ok_iff line f1 f2 f4).mpr ⟨hmem, fun _ => hp⟩
      obtain ⟨c, hc⟩ := (withResult_ok_iff line f3 a).mpr h3
      exact ⟨c, Go.bind_eq_ok.mpr ⟨a, ha, hc⟩⟩
  refine ⟨hiff, int64Literal_eq_some_iff f4, ?_, ?_⟩
  · intro c n hc hn
    rw [parseCompare_eq hs] at hc
    obtain ⟨a, ha, hr⟩ := Go.bind_eq_ok.mp hc
    obtain ⟨-, k1, k2, k3, -⟩ := withTarget_ok ha
    obtain ⟨⟨r, rfl⟩, -⟩ := withResult_ok hr
    have hp := (ParseInt_eq_iff f4 n).mpr hn
    refine ⟨fun h => ?_, fun h => ?_, fun h => ?_⟩
    · have e := (k1 h).2
      rw [hp] at e
      simp only [Prod.mk.injEq, and_true] at e
      exact e.symm
    · have e := (k2 h).2
      rw [hp] at e
      simp only [Prod.mk.injEq, and_true] at e
      exact e.symm
    · have e := (k3 h).2
      rw [hp] at e
      simp only [Prod.mk.injEq, and_true] at e
      exact e.symm
  · intro hnone
    rcases parseCompare_ok_or_fail line with hc | hf
    · obtain ⟨n, hn⟩ := hiff.mp hc
      rw [hnone] at hn
      cases hn
    · exact hf

/-- The statements of `parseCompare_integer_field` on concrete lines: the value
`-9223372036854775808` is parsed without loss, and `9223372036854775808`, an
empty field and `12a` are errors of the line. -/
theorem parseCompare_integer_field_witness :
    (∀ c, parseCompare (str "k c e -9223372036854775808") = Go.ok c →
      c.CreateRevision = -9223372036854775808) ∧
    parseCompare (str "foo ver g 9223372036854775808") =
      Go.fail (fmt.Errorf msgCompare (str "foo ver g 9223372036854775808")) ∧
    parseCompare (str "foo ver g ") = Go.fail (fmt.Errorf msgCompare (str "foo ver g ")) ∧
    parseCompare (str "foo mod l 12a") = Go.fail (fmt.Errorf msgCompare (str "foo mod l 12a")) :=
  ⟨fun c hc =>
      ((parseCompare_integer_field (str "k c e -9223372036854775808") (str "k") (str "c")
          (str "e") (str "-9223372036854775808") (by decide) (by decide) (by decide)).2.2.1
        c (-9223372036854775808) hc (by decide)).2.1 (Or.inl rfl),
   (parseCompare_integer_field (str "foo ver g 9223372036854775808") (str "foo") (str "ver")
      (str "g") (str "9223372036854775808") (by decide) (by decide) (by decide)).2.2.2
      (by decide),
   (parseCompare_integer_field (str "foo ver g ") (str "foo") (str "ver")
      (str "g") [] (by decide) (by decide) (by decide)).2.2.2 (by decide),
   (parseCompare_integer_field (str "foo mod l 12a") (str "foo") (str "mod")
      (str "l") (str "12a") (by decide) (by decide) (by decide)).2.2.2 (by decide)⟩

end Etcd
